import Mathlib

/-! # go-zero-api-parser: the normalisation of a parsed API document

A shallow embedding of `src/main.go`: the result records (`ApiParseResult` and
its parts), the conversion `convertToApiParseResult`, the struct projection
`convertDefineStructToApiType` and the three lookup helpers, the JSON form of a
result under the field tags, followed by the properties of the conversion.

Go values are embedded as follows.

* A `map[string]string` is `GoMap`: `none` is the nil map, `some m` a map with
  distinct keys. Reading, `len`, `range` and storing are `mapIndex`, `mapLen`,
  `mapEntries` and `mapStore`; storing into the nil map fails.
* A slice the conversion builds is `Slice α`: `none` is the nil slice. The
  slices of the parsed document are only ranged over and measured, which does
  not tell nil from empty, so they are lists.
* A pointer or an interface value that may be nil is an `Option`; an operation
  that would dereference nil returns `none`, so the conversion is a function
  into `Option`.
-/

namespace ApiParser

/-! ## Go values -/

/-- A non-nil Go `map[string]string`: finitely many entries with distinct keys. -/
abbrev StrMap := AList (fun _ : String => String)

/-- A Go `map[string]string` value; `none` is the nil map. -/
abbrev GoMap := Option StrMap

/-- The comma-ok read `value, ok := m[key]`; the nil map holds no key. -/
def mapIndex (m : GoMap) (key : String) : Option String :=
  match m with
  | none => none
  | some entries => entries.lookup key

/-- Go `len(m)`; the nil map has length 0. -/
def mapLen (m : GoMap) : Nat :=
  match m with
  | none => 0
  | some entries => entries.entries.length

/-- The key/value pairs a `range` over the map visits (in some order). -/
def mapEntries (m : GoMap) : List (Sigma (fun _ : String => String)) :=
  match m with
  | none => []
  | some entries => entries.entries

/-- The store `m[key] = value`; it fails on the nil map. -/
def mapStore (m : GoMap) (key value : String) : Option GoMap :=
  match m with
  | none => none
  | some entries => some (some (entries.insert key value))

/-- Go `make(map[string]string)`: the empty, non-nil map. -/
def makeMap : GoMap := some ∅

/-- A Go slice value built by the conversion; `none` is the nil slice. -/
abbrev Slice (α : Type) := Option (List α)

/-- The elements of a slice; the nil slice has none. -/
def sliceElems {α : Type} (s : Slice α) : List α :=
  match s with
  | none => []
  | some xs => xs

/-- Go `append(s, x)`: the result is never nil. -/
def goAppend {α : Type} (s : Slice α) (x : α) : Slice α :=
  some (sliceElems s ++ [x])

/-- Go `make([]string, n)`: `n` empty strings. -/
def makeStrings (n : Nat) : List String := List.replicate n ""

/-- Go `copy(dst, src)`: the first `min (len dst) (len src)` elements of `dst`
are replaced by those of `src`. The value is `dst` after the call. -/
def goCopy (dst src : List String) : List String :=
  src.take dst.length ++ dst.drop src.length

/-! ## The parsed document (package `spec` of go-zero) -/

/-- Modelled from the spec: a non-nil value of the parser's `spec.Type`
interface where it stands for the type of a member or of a request or response
body. The declaration of `spec.Type` is not among the sources; the conversion
only calls `Name()` on such a value, so it is kept as a bare token. -/
structure TypeExpr where
  token : String
deriving DecidableEq

/-- Modelled from the spec: the parser's `spec.Member` (a field of a struct
definition), whose declaration is not among the sources, with the fields the
conversion reads. `Type_` is the Go field `Type`, an interface value, `none`
when nil. -/
structure Member where
  Name : String
  Type_ : Option TypeExpr
  Tag : String
  Comment : String
  Docs : List String
  IsInline : Bool
deriving DecidableEq

/-- Modelled from the spec: the parser's `spec.DefineStruct` (a struct-shaped
type definition), whose declaration is not among the sources, with the fields
the conversion reads. -/
structure DefineStruct where
  RawName : String
  Members : List Member
  Docs : List String
deriving DecidableEq

/-- Modelled from the spec: an entry of the document's type list, a value of
the interface `spec.Type`, told apart the way the type assertion
`typ.(*spec.DefineStruct)` tells it apart: `nilType` is the nil interface,
`structPtr p` a value whose dynamic type is `*spec.DefineStruct` (`p = none`
for a nil pointer), `structVal d` a struct definition held by value (dynamic
type `spec.DefineStruct`, the form in which the parser stores a definition),
and `other t` a value of any other dynamic type, such as an alias. -/
inductive TypeEntry where
  | nilType
  | structPtr (p : Option DefineStruct)
  | structVal (d : DefineStruct)
  | other (t : TypeExpr)
deriving DecidableEq

/-- Modelled from the spec: the parser's `spec.Annotation`, the key/value
properties of an `@server` block; its declaration is not among the sources. -/
structure Annotation where
  Properties : GoMap
deriving DecidableEq

/-- Modelled from the spec: the parser's `spec.AtDoc`, the `@doc` annotation of
a route: key/value properties and a free-text line; its declaration is not
among the sources. -/
structure AtDoc where
  Properties : GoMap
  Text : String
deriving DecidableEq

/-- Modelled from the spec: the parser's `spec.Route`, whose declaration is not
among the sources, with the fields the conversion reads. `RequestType` and
`ResponseType` are interface values, `none` when nil. -/
structure Route where
  AtServerAnnotation : Annotation
  Method : String
  Path : String
  RequestType : Option TypeExpr
  ResponseType : Option TypeExpr
  Docs : List String
  Handler : String
  AtDoc : AtDoc
deriving DecidableEq

/-- Modelled from the spec: the parser's `spec.Group`, a route group with its
`@server` annotation; its declaration is not among the sources. -/
structure Group where
  Annotation : Annotation
  Routes : List Route
deriving DecidableEq

/-- Modelled from the spec: the parser's `spec.Service`; its declaration is not
among the sources. -/
structure Service where
  Name : String
  Groups : List Group
deriving DecidableEq

/-- Modelled from the spec: the parser's `spec.Info`, the metadata block with
its legacy single-valued fields and its property map; its declaration is not
among the sources. -/
structure Info where
  Title : String
  Desc : String
  Version : String
  Author : String
  Email : String
  Properties : GoMap
deriving DecidableEq

/-- Modelled from the spec: the parser's `spec.ApiSyntax`; its declaration is
not among the sources. -/
structure ApiSyntax where
  Version : String
deriving DecidableEq

/-- Modelled from the spec: the parser's `spec.Import`, with the one field the
conversion reads; its declaration is not among the sources. -/
structure Import where
  Value : String
deriving DecidableEq

/-- Modelled from the spec: the parser's `spec.ApiSpec`, the parsed document;
its declaration is not among the sources. -/
structure ApiSpec where
  Info : Info
  Syntax : ApiSyntax
  Imports : List Import
  Types : List TypeEntry
  Service : Service
deriving DecidableEq

/-- Modelled from the spec: the methods of package `spec` that the conversion
calls and whose bodies are not among the sources, taken as parameters:
`(DefineStruct).Name()`, `(Type).Name()`, `(Member).IsOptional()`,
`(Route).RequestTypeName()` and `(Route).ResponseTypeName()`. `IsOptional()`
parses the tag of the member and does not return (it panics) when the tag does
not parse; `none` stands for that. -/
structure SpecMethods where
  structName : DefineStruct → String
  typeName : TypeExpr → String
  isOptional : Member → Option Bool
  requestTypeName : Route → String
  responseTypeName : Route → String

/-! ## The result records of `src/main.go` -/

/-- The Go record `ApiTypeField`; `Type_` is the Go field `Type`. -/
structure ApiTypeField where
  Name : String
  Type_ : String
  Tag : String
  Comment : String
  Docs : Slice String
  IsInline : Bool
  Optional : Bool
deriving DecidableEq

/-- The Go record `ApiType`. -/
structure ApiType where
  Name : String
  Package : String
  TypeName : String
  RawName : String
  Fields : Slice ApiTypeField
  Docs : Slice String
  Enums : GoMap
deriving DecidableEq

/-- The Go record `ApiInfo`. -/
structure ApiInfo where
  Title : String
  Desc : String
  Author : String
  Date : String
  Version : String
  Email : String
  Properties : GoMap
deriving DecidableEq

/-- The Go record `ApiImport`. -/
structure ApiImport where
  Value : String
  AsPackage : String
  Types : Slice ApiType
deriving DecidableEq

/-- The Go record `ApiServer`. -/
structure ApiServer where
  Group : String
  Prefix : String
  Auth : String
  Middleware : Slice String
  Timeout : String
deriving DecidableEq

/-- The Go record `ApiRoute`. -/
structure ApiRoute where
  Handler : String
  Method : String
  Path : String
  RequestType : String
  ResponseType : String
  Doc : GoMap
  Docs : Slice String
  AtServerAnnotation : GoMap
deriving DecidableEq

/-- The Go record `ApiService`. -/
structure ApiService where
  Name : String
  Server : ApiServer
  Routes : Slice ApiRoute
deriving DecidableEq

/-- The Go record `ApiParseResult`. -/
structure ApiParseResult where
  Syntax : String
  Info : ApiInfo
  Imports : Slice ApiImport
  Types : Slice ApiType
  Services : Slice ApiService
deriving DecidableEq

/-- The zero value of `ApiServer`: empty strings and a nil `Middleware`. -/
def ApiServer.zero : ApiServer :=
  { Group := "", Prefix := "", Auth := "", Middleware := none, Timeout := "" }

/-! ## The conversion of `src/main.go` -/

/-- The Go function `getInfoValue`. -/
def getInfoValue (properties : GoMap) (key : String) : String :=
  match mapIndex properties key with
  | some value => value
  | none => ""

/-- The Go function `getServerValue`. -/
def getServerValue (properties : GoMap) (key : String) : String :=
  match mapIndex properties key with
  | some value => value
  | none => ""

/-- The Go function `getServerValues`. -/
def getServerValues (properties : GoMap) (key : String) : Slice String :=
  match mapIndex properties key with
  | some value => some [value]
  | none => some []

/-- The body of the member loop of `convertDefineStructToApiType`: the
`ApiTypeField` built for one member. Calling `Name()` on a nil `member.Type`
fails, and so does `member.IsOptional()` on a tag that does not parse. -/
def convertMember (ext : SpecMethods) (member : Member) : Option ApiTypeField := do
  let memberType ← member.Type_
  let optional ← ext.isOptional member
  let apiField : ApiTypeField :=
    { Name := member.Name
      Type_ := ext.typeName memberType
      Optional := optional
      IsInline := member.IsInline
      Docs := some []
      Tag := ""
      Comment := "" }
  let apiField := if member.Tag ≠ "" then { apiField with Tag := member.Tag } else apiField
  let apiField :=
    if member.Comment ≠ "" then { apiField with Comment := member.Comment } else apiField
  let apiField :=
    if member.Docs.length > 0 then
      { apiField with Docs := some (goCopy (makeStrings member.Docs.length) member.Docs) }
    else apiField
  pure apiField

/-- The Go function `convertDefineStructToApiType`; its argument is a pointer,
and a nil pointer fails at the first field read. -/
def convertDefineStructToApiType (ext : SpecMethods) (defineStruct : Option DefineStruct) :
    Option ApiType := do
  let d ← defineStruct
  let apiType : ApiType :=
    { Name := ext.structName d
      RawName := d.RawName
      Fields := some []
      Docs := some []
      Package := ""
      TypeName := ""
      Enums := none }
  let apiType :=
    if d.Docs.length > 0 then
      { apiType with Docs := some (goCopy (makeStrings d.Docs.length) d.Docs) }
    else apiType
  d.Members.foldlM
    (fun apiType member => do
      let apiField ← convertMember ext member
      pure { apiType with Fields := goAppend apiType.Fields apiField })
    apiType

/-- The `ApiServer` that `convertToApiParseResult` builds from the `@server`
properties of one route group (the body of `if group.Annotation.Properties != nil`). -/
def convertServer (properties : GoMap) : ApiServer :=
  let authValue := getServerValue properties "auth"
  let authValue := if authValue = "" then getServerValue properties "jwt" else authValue
  { Group := getServerValue properties "group"
    Prefix := getServerValue properties "prefix"
    Auth := authValue
    Timeout := getServerValue properties "timeout"
    Middleware := getServerValues properties "middleware" }

/-- The body of the route loop of `convertToApiParseResult`: the `ApiRoute`
built for one route. -/
def convertRoute (ext : SpecMethods) (route : Route) : Option ApiRoute := do
  let apiRoute : ApiRoute :=
    { Handler := route.Handler
      Method := route.Method
      Path := route.Path
      Doc := makeMap
      Docs := some []
      AtServerAnnotation := makeMap
      RequestType := ""
      ResponseType := "" }
  let apiRoute :=
    if route.RequestType ≠ none then
      { apiRoute with RequestType := ext.requestTypeName route }
    else apiRoute
  let apiRoute :=
    if route.ResponseType ≠ none then
      { apiRoute with ResponseType := ext.responseTypeName route }
    else apiRoute
  let doc ←
    if route.AtDoc.Properties ≠ none then
      (mapEntries route.AtDoc.Properties).foldlM
        (fun doc entry => mapStore doc entry.1 entry.2) apiRoute.Doc
    else pure apiRoute.Doc
  let doc ← if route.AtDoc.Text ≠ "" then mapStore doc "summary" route.AtDoc.Text else pure doc
  let apiRoute := { apiRoute with Doc := doc }
  let apiRoute :=
    if route.Docs.length > 0 then
      { apiRoute with Docs := some (goCopy (makeStrings route.Docs.length) route.Docs) }
    else apiRoute
  let apiRoute :=
    if route.AtServerAnnotation.Properties ≠ none then
      { apiRoute with AtServerAnnotation := route.AtServerAnnotation.Properties }
    else apiRoute
  pure apiRoute

/-- The body of the group loop of `convertToApiParseResult`: the service after
one more route group. -/
def convertGroup (ext : SpecMethods) (apiService : ApiService) (group : Group) :
    Option ApiService := do
  let apiService :=
    if group.Annotation.Properties ≠ none then
      { apiService with Server := convertServer group.Annotation.Properties }
    else apiService
  group.Routes.foldlM
    (fun apiService route => do
      let apiRoute ← convertRoute ext route
      pure { apiService with Routes := goAppend apiService.Routes apiRoute })
    apiService

/-- The Go function `convertToApiParseResult`; its argument is a pointer, and a
nil pointer fails at the first field read. -/
def convertToApiParseResult (ext : SpecMethods) (apiSpec : Option ApiSpec) :
    Option ApiParseResult := do
  let apiSpec ← apiSpec
  let syntaxVersion := apiSpec.Syntax.Version
  let result : ApiParseResult :=
    { Syntax := syntaxVersion
      Imports := some []
      Types := some []
      Services := some []
      Info :=
        { Title := "", Desc := "", Author := "", Date := "", Version := "", Email := "",
          Properties := none } }
  let result :=
    { result with
      Info :=
        { Title := getInfoValue apiSpec.Info.Properties "title"
          Desc := getInfoValue apiSpec.Info.Properties "desc"
          Author := getInfoValue apiSpec.Info.Properties "author"
          Date := getInfoValue apiSpec.Info.Properties "date"
          Version := getInfoValue apiSpec.Info.Properties "version"
          Email := getInfoValue apiSpec.Info.Properties "email"
          Properties := apiSpec.Info.Properties } }
  let result :=
    if mapLen apiSpec.Info.Properties = 0 then
      { result with
        Info :=
          { result.Info with
            Title := apiSpec.Info.Title
            Desc := apiSpec.Info.Desc
            Author := apiSpec.Info.Author
            Version := apiSpec.Info.Version
            Email := apiSpec.Info.Email } }
    else result
  let result :=
    apiSpec.Imports.foldl
      (fun result imp =>
        let apiImport : ApiImport := { Value := imp.Value, Types := some [], AsPackage := "" }
        { result with Imports := goAppend result.Imports apiImport })
      result
  let result ←
    apiSpec.Types.foldlM
      (fun result typ =>
        match typ with
        | TypeEntry.structPtr defineStruct => do
          let apiType ← convertDefineStructToApiType ext defineStruct
          pure { result with Types := goAppend result.Types apiType }
        | _ => pure result)
      result
  let apiService : ApiService :=
    { Name := apiSpec.Service.Name
      Routes := some []
      Server := ApiServer.zero }
  let apiService ← apiSpec.Service.Groups.foldlM (convertGroup ext) apiService
  let result := { result with Services := goAppend result.Services apiService }
  pure result

/-! ## Documents on which the conversion returns -/

/-- Every member of the struct definition has a type (a non-nil `Type`). -/
def DefineStruct.membersTyped (d : DefineStruct) : Bool :=
  d.Members.all (fun member => member.Type_.isSome)

/-- Every pointer to a struct definition in the type list is non-nil and every
member of such a definition has a type. -/
def ApiSpec.membersTyped (apiSpec : ApiSpec) : Bool :=
  apiSpec.Types.all (fun typ =>
    match typ with
    | TypeEntry.structPtr none => false
    | TypeEntry.structPtr (some d) => d.membersTyped
    | _ => true)

/-- Every member of the struct definition has a type (a non-nil `Type`) and a
tag on which `IsOptional()` returns. -/
def DefineStruct.wellFormed (ext : SpecMethods) (d : DefineStruct) : Bool :=
  d.Members.all (fun member => member.Type_.isSome && (ext.isOptional member).isSome)

/-- An entry of the type list that is either no `*spec.DefineStruct` or a
non-nil one whose members all have a type and a tag that parses. -/
def TypeEntry.wellFormed (ext : SpecMethods) : TypeEntry → Bool
  | TypeEntry.structPtr none => false
  | TypeEntry.structPtr (some d) => d.wellFormed ext
  | _ => true

/-- A document on which the conversion meets no failing operation: every
pointer to a struct definition in the type list is non-nil, and every member of
such a definition has a type and a tag that parses. -/
def ApiSpec.wellFormed (ext : SpecMethods) (apiSpec : ApiSpec) : Bool :=
  apiSpec.Types.all (TypeEntry.wellFormed ext)

/-- The entries of a type list that pass the type assertion
`typ.(*spec.DefineStruct)`, in order, each as its pointer. -/
def assertedStructs (types : List TypeEntry) : List (Option DefineStruct) :=
  types.filterMap (fun typ =>
    match typ with
    | TypeEntry.structPtr p => some p
    | _ => none)

/-- A struct-shaped entry of the type list: a struct definition, held through a
pointer or by value. -/
def TypeEntry.structShaped : TypeEntry → Bool
  | TypeEntry.structPtr _ => true
  | TypeEntry.structVal _ => true
  | _ => false

/-! ## Worked examples -/

/-- A sample of the parser's methods: a struct and a type are named by their
raw text, a body type is named when present, and `IsOptional()` returns false
on a tag that is empty or holds a quoted value and does not return on any
other tag. -/
def sampleMethods : SpecMethods :=
  { structName := fun d => d.RawName
    typeName := fun t => t.token
    isOptional := fun member =>
      if member.Tag = "" ∨ Char.ofNat 34 ∈ member.Tag.data then some false else none
    requestTypeName := fun route =>
      match route.RequestType with
      | some t => t.token
      | none => ""
    responseTypeName := fun route =>
      match route.ResponseType with
      | some t => t.token
      | none => "" }

/-- The non-nil map holding the given pairs (an earlier pair wins on a repeated key). -/
def mapOf (pairs : List (String × String)) : GoMap :=
  some (pairs.foldr (fun pair m => m.insert pair.1 pair.2) ∅)

/-- A route with the given handler and path, no body types and no annotations. -/
def sampleRoute (handler path : String) : Route :=
  { AtServerAnnotation := { Properties := none }
    Method := "get"
    Path := path
    RequestType := none
    ResponseType := none
    Docs := []
    Handler := handler
    AtDoc := { Properties := none, Text := "" } }

/-- A route whose `@doc` has the property `desc = x` and the free text `hello`. -/
def docRoute : Route :=
  { sampleRoute "ping" "/ping" with
    AtDoc := { Properties := mapOf [("desc", "x")], Text := "hello" } }

/-- A struct definition with two members, the second without tag and comment. -/
def sampleStruct : DefineStruct :=
  { RawName := "User"
    Members :=
      [ { Name := "Id", Type_ := some ⟨"int64"⟩, Tag := "json:\"id\"", Comment := "// id",
          Docs := ["// the key"], IsInline := false },
        { Name := "Base", Type_ := some ⟨"Base"⟩, Tag := "", Comment := "", Docs := [],
          IsInline := true } ]
    Docs := ["// User is a user"] }

/-- The `@server` properties `auth = ""`, `jwt = x`: the key `auth` is present
and holds the empty string. -/
def authEmptyProperties : GoMap := mapOf [("auth", ""), ("jwt", "x")]

/-- The `@server` properties `auth = jwt-custom`, `jwt = other`. -/
def authBothProperties : GoMap := mapOf [("auth", "jwt-custom"), ("jwt", "other")]

/-- The `@server` properties holding `jwt = x` only. -/
def jwtOnlyProperties : GoMap := mapOf [("jwt", "x")]

/-- A document with metadata properties next to a legacy title, two imports, a
struct and an alias, and two annotated route groups of sizes 2 and 3. -/
def sampleDoc : ApiSpec :=
  { Info :=
      { Title := "legacy title", Desc := "", Version := "", Author := "", Email := "",
        Properties := mapOf [("desc", "demo"), ("author", "me")] }
    Syntax := { Version := "v1" }
    Imports := [{ Value := "base.api" }, { Value := "user.api" }]
    Types := [TypeEntry.structPtr (some sampleStruct), TypeEntry.other ⟨"Alias"⟩]
    Service :=
      { Name := "demo-api"
        Groups :=
          [ { Annotation := { Properties := mapOf [("group", "a"), ("auth", "Auth")] }
              Routes := [sampleRoute "a1" "/a1", sampleRoute "a2" "/a2"] },
            { Annotation := { Properties := mapOf [("prefix", "/v1"), ("middleware", "A,B")] }
              Routes := [sampleRoute "b1" "/b1", docRoute, sampleRoute "b3" "/b3"] } ] } }

/-- A document with a nil metadata property map and legacy fields, and one
route group without annotation. -/
def legacyDoc : ApiSpec :=
  { Info :=
      { Title := "T", Desc := "D", Version := "1.0", Author := "A", Email := "e@x",
        Properties := none }
    Syntax := { Version := "v1" }
    Imports := []
    Types := []
    Service :=
      { Name := "legacy-api"
        Groups := [{ Annotation := { Properties := none }, Routes := [sampleRoute "h" "/h"] }] } }

/-- A document with one route group whose `@server` holds `auth = ""` and
`jwt = x`. -/
def authEmptyDoc : ApiSpec :=
  { legacyDoc with
    Service :=
      { Name := "auth-api"
        Groups := [{ Annotation := { Properties := authEmptyProperties }, Routes := [] }] } }

/-- A route that declares a request type and no response type, with two doc
lines and a route-level `@server` property. -/
def bodyRoute : Route :=
  { sampleRoute "create" "/users" with
    Method := "post"
    RequestType := some ⟨"CreateReq"⟩
    Docs := ["// create", "// a user"]
    AtServerAnnotation := { Properties := mapOf [("role", "admin")] } }

/-- A document without any route group. -/
def noGroupsDoc : ApiSpec :=
  { legacyDoc with Service := { Name := "empty-api", Groups := [] } }

/-- A struct definition whose one member has a type and the tag `json:id`,
which does not parse: its value is not quoted. -/
def badTagStruct : DefineStruct :=
  { RawName := "Bad"
    Members :=
      [ { Name := "Id", Type_ := some ⟨"int64"⟩, Tag := "json:id", Comment := "", Docs := [],
          IsInline := false } ]
    Docs := [] }

/-- A document whose type list is a non-nil pointer to `badTagStruct`. -/
def badTagDoc : ApiSpec :=
  { legacyDoc with Types := [TypeEntry.structPtr (some badTagStruct)] }

/-- A document whose type list is one struct definition held by value, as the
parser stores it, and one alias. -/
def byValueDoc : ApiSpec :=
  { legacyDoc with Types := [TypeEntry.structVal sampleStruct, TypeEntry.other ⟨"Alias"⟩] }

/-- The `@server` properties holding `middleware = A,B`. -/
def middlewareProperties : GoMap := mapOf [("middleware", "A,B")]

/-! ## JSON under the field tags -/

/-- Modelled from the spec: a JSON value as `encoding/json` writes and reads
it for the result records (no number occurs in them). The serialiser and the
decoder belong to Go's library and are not among the sources; the text of a
JSON document and its re-reading are taken as lossless (strings are valid
Unicode), so a value stands for its text. -/
inductive Json where
  | null
  | bool (b : Bool)
  | str (s : String)
  | arr (items : List Json)
  | obj (members : List (String × Json))

/-- Modelled from the spec: a member whose tag is marked `omitempty` is left
out when its value is empty (an empty string, or a nil or empty slice or map). -/
def omitEmpty (key : String) (empty : Bool) (value : Json) : List (String × Json) :=
  if empty then [] else [(key, value)]

/-- Modelled from the spec: a slice is written as `null` when nil and as an
array otherwise. -/
def encodeSlice {α : Type} (encode : α → Json) (s : Slice α) : Json :=
  match s with
  | none => Json.null
  | some xs => Json.arr (xs.map encode)

/-- Modelled from the spec: a map is written as `null` when nil and as an
object otherwise. The order of the members does not matter to a reader (Go
sorts them by key); they are written here from the last entry to the first. -/
def encodeMap (m : GoMap) : Json :=
  match m with
  | none => Json.null
  | some entries => Json.obj (entries.entries.reverse.map (fun e => (e.1, Json.str e.2)))

/-- The JSON object of an `ApiTypeField` under its field tags. -/
def ApiTypeField.toJson (f : ApiTypeField) : Json :=
  Json.obj
    ([("name", Json.str f.Name), ("type", Json.str f.Type_), ("tag", Json.str f.Tag),
      ("comment", Json.str f.Comment)]
      ++ omitEmpty "docs" (sliceElems f.Docs).isEmpty (encodeSlice Json.str f.Docs)
      ++ [("is_inline", Json.bool f.IsInline), ("optional", Json.bool f.Optional)])

/-- The JSON object of an `ApiType` under its field tags. -/
def ApiType.toJson (t : ApiType) : Json :=
  Json.obj
    ([("name", Json.str t.Name)]
      ++ omitEmpty "package" (t.Package == "") (Json.str t.Package)
      ++ omitEmpty "type_name" (t.TypeName == "") (Json.str t.TypeName)
      ++ omitEmpty "raw_name" (t.RawName == "") (Json.str t.RawName)
      ++ [("fields", encodeSlice ApiTypeField.toJson t.Fields)]
      ++ omitEmpty "docs" (sliceElems t.Docs).isEmpty (encodeSlice Json.str t.Docs)
      ++ omitEmpty "enums" (mapLen t.Enums == 0) (encodeMap t.Enums))

/-- The JSON object of an `ApiInfo` under its field tags. -/
def ApiInfo.toJson (i : ApiInfo) : Json :=
  Json.obj
    [("title", Json.str i.Title), ("desc", Json.str i.Desc), ("author", Json.str i.Author),
      ("date", Json.str i.Date), ("version", Json.str i.Version), ("email", Json.str i.Email),
      ("properties", encodeMap i.Properties)]

/-- The JSON object of an `ApiImport` under its field tags. -/
def ApiImport.toJson (i : ApiImport) : Json :=
  Json.obj
    ([("value", Json.str i.Value)]
      ++ omitEmpty "as_package" (i.AsPackage == "") (Json.str i.AsPackage)
      ++ omitEmpty "types" (sliceElems i.Types).isEmpty (encodeSlice ApiType.toJson i.Types))

/-- The JSON object of an `ApiServer` under its field tags. -/
def ApiServer.toJson (s : ApiServer) : Json :=
  Json.obj
    [("group", Json.str s.Group), ("prefix", Json.str s.Prefix), ("auth", Json.str s.Auth),
      ("middleware", encodeSlice Json.str s.Middleware), ("timeout", Json.str s.Timeout)]

/-- The JSON object of an `ApiRoute` under its field tags. -/
def ApiRoute.toJson (r : ApiRoute) : Json :=
  Json.obj
    ([("handler", Json.str r.Handler), ("method", Json.str r.Method), ("path", Json.str r.Path),
      ("request_type", Json.str r.RequestType), ("response_type", Json.str r.ResponseType),
      ("doc", encodeMap r.Doc)]
      ++ omitEmpty "docs" (sliceElems r.Docs).isEmpty (encodeSlice Json.str r.Docs)
      ++ omitEmpty "at_server_annotation" (mapLen r.AtServerAnnotation == 0)
        (encodeMap r.AtServerAnnotation))

/-- The JSON object of an `ApiService` under its field tags. -/
def ApiService.toJson (s : ApiService) : Json :=
  Json.obj
    [("name", Json.str s.Name), ("server", s.Server.toJson),
      ("routes", encodeSlice ApiRoute.toJson s.Routes)]

/-- The JSON object of an `ApiParseResult` under its field tags: what `main`
prints. -/
def ApiParseResult.toJson (r : ApiParseResult) : Json :=
  Json.obj
    [("syntax", Json.str r.Syntax), ("info", r.Info.toJson),
      ("imports", encodeSlice ApiImport.toJson r.Imports),
      ("types", encodeSlice ApiType.toJson r.Types),
      ("services", encodeSlice ApiService.toJson r.Services)]

/-- Modelled from the spec: the member of an object that a reader takes for a
key: the last one with that key. -/
def member? (key : String) : List (String × Json) → Option Json
  | [] => none
  | (k, v) :: rest => (member? key rest).or (if k = key then some v else none)

/-- Modelled from the spec: reading a member into a field that holds `zero`: a
missing member and `null` leave the field as it is. -/
def readField {α : Type} (zero : α) (read : Json → Option α) : Option Json → Option α
  | none => some zero
  | some Json.null => some zero
  | some value => read value

/-- Modelled from the spec: reading a string. -/
def readString : Json → Option String
  | Json.str s => some s
  | _ => none

/-- Modelled from the spec: reading a boolean. -/
def readBool : Json → Option Bool
  | Json.bool b => some b
  | _ => none

/-- Modelled from the spec: reading the items of an array one by one; `null`
as an item leaves the zero value. -/
def readItems {α : Type} (zero : α) (read : Json → Option α) : List Json → Option (List α)
  | [] => some []
  | item :: rest =>
    match readField zero read (some item), readItems zero read rest with
    | some x, some xs => some (x :: xs)
    | _, _ => none

/-- Modelled from the spec: reading an array into a slice; the slice is
initialised even when the array is empty. -/
def readSlice {α : Type} (zero : α) (read : Json → Option α) : Json → Option (Slice α)
  | Json.arr items => (readItems zero read items).map some
  | _ => none

/-- Modelled from the spec: storing the members of an object into a map one by
one, a later member replacing an earlier one with the same key. -/
def readMembers : List (String × Json) → StrMap → Option StrMap
  | [], m => some m
  | (k, v) :: rest, m =>
    match readField "" readString (some v) with
    | some s => readMembers rest (m.insert k s)
    | none => none

/-- Modelled from the spec: reading an object into a map; the map is
initialised even when the object has no member. -/
def readMap : Json → Option GoMap
  | Json.obj members => (readMembers members ∅).map some
  | _ => none

/-- The zero value of `ApiTypeField`. -/
def ApiTypeField.zero : ApiTypeField :=
  { Name := "", Type_ := "", Tag := "", Comment := "", Docs := none, IsInline := false,
    Optional := false }

/-- Reading an `ApiTypeField` from a JSON object under its field tags. -/
def ApiTypeField.ofJson : Json → Option ApiTypeField
  | Json.obj ms => do
    let name ← readField "" readString (member? "name" ms)
    let type ← readField "" readString (member? "type" ms)
    let tag ← readField "" readString (member? "tag" ms)
    let comment ← readField "" readString (member? "comment" ms)
    let docs ← readField none (readSlice "" readString) (member? "docs" ms)
    let isInline ← readField false readBool (member? "is_inline" ms)
    let optional ← readField false readBool (member? "optional" ms)
    pure
      { Name := name, Type_ := type, Tag := tag, Comment := comment, Docs := docs,
        IsInline := isInline, Optional := optional }
  | _ => none

/-- The zero value of `ApiType`. -/
def ApiType.zero : ApiType :=
  { Name := "", Package := "", TypeName := "", RawName := "", Fields := none, Docs := none,
    Enums := none }

/-- Reading an `ApiType` from a JSON object under its field tags. -/
def ApiType.ofJson : Json → Option ApiType
  | Json.obj ms => do
    let name ← readField "" readString (member? "name" ms)
    let package ← readField "" readString (member? "package" ms)
    let typeName ← readField "" readString (member? "type_name" ms)
    let rawName ← readField "" readString (member? "raw_name" ms)
    let fields ← readField none (readSlice ApiTypeField.zero ApiTypeField.ofJson)
      (member? "fields" ms)
    let docs ← readField none (readSlice "" readString) (member? "docs" ms)
    let enums ← readField none readMap (member? "enums" ms)
    pure
      { Name := name, Package := package, TypeName := typeName, RawName := rawName,
        Fields := fields, Docs := docs, Enums := enums }
  | _ => none

/-- The zero value of `ApiInfo`. -/
def ApiInfo.zero : ApiInfo :=
  { Title := "", Desc := "", Author := "", Date := "", Version := "", Email := "",
    Properties := none }

/-- Reading an `ApiInfo` from a JSON object under its field tags. -/
def ApiInfo.ofJson : Json → Option ApiInfo
  | Json.obj ms => do
    let title ← readField "" readString (member? "title" ms)
    let desc ← readField "" readString (member? "desc" ms)
    let author ← readField "" readString (member? "author" ms)
    let date ← readField "" readString (member? "date" ms)
    let version ← readField "" readString (member? "version" ms)
    let email ← readField "" readString (member? "email" ms)
    let properties ← readField none readMap (member? "properties" ms)
    pure
      { Title := title, Desc := desc, Author := author, Date := date, Version := version,
        Email := email, Properties := properties }
  | _ => none

/-- The zero value of `ApiImport`. -/
def ApiImport.zero : ApiImport :=
  { Value := "", AsPackage := "", Types := none }

/-- Reading an `ApiImport` from a JSON object under its field tags. -/
def ApiImport.ofJson : Json → Option ApiImport
  | Json.obj ms => do
    let value ← readField "" readString (member? "value" ms)
    let asPackage ← readField "" readString (member? "as_package" ms)
    let types ← readField none (readSlice ApiType.zero ApiType.ofJson) (member? "types" ms)
    pure { Value := value, AsPackage := asPackage, Types := types }
  | _ => none

/-- Reading an `ApiServer` from a JSON object under its field tags. -/
def ApiServer.ofJson : Json → Option ApiServer
  | Json.obj ms => do
    let group ← readField "" readString (member? "group" ms)
    let pre ← readField "" readString (member? "prefix" ms)
    let auth ← readField "" readString (member? "auth" ms)
    let middleware ← readField none (readSlice "" readString) (member? "middleware" ms)
    let timeout ← readField "" readString (member? "timeout" ms)
    pure
      { Group := group, Prefix := pre, Auth := auth, Middleware := middleware,
        Timeout := timeout }
  | _ => none

/-- The zero value of `ApiRoute`. -/
def ApiRoute.zero : ApiRoute :=
  { Handler := "", Method := "", Path := "", RequestType := "", ResponseType := "",
    Doc := none, Docs := none, AtServerAnnotation := none }

/-- Reading an `ApiRoute` from a JSON object under its field tags. -/
def ApiRoute.ofJson : Json → Option ApiRoute
  | Json.obj ms => do
    let handler ← readField "" readString (member? "handler" ms)
    let method ← readField "" readString (member? "method" ms)
    let path ← readField "" readString (member? "path" ms)
    let requestType ← readField "" readString (member? "request_type" ms)
    let responseType ← readField "" readString (member? "response_type" ms)
    let doc ← readField none readMap (member? "doc" ms)
    let docs ← readField none (readSlice "" readString) (member? "docs" ms)
    let atServer ← readField none readMap (member? "at_server_annotation" ms)
    pure
      { Handler := handler, Method := method, Path := path, RequestType := requestType,
        ResponseType := responseType, Doc := doc, Docs := docs,
        AtServerAnnotation := atServer }
  | _ => none

/-- The zero value of `ApiService`. -/
def ApiService.zero : ApiService :=
  { Name := "", Server := ApiServer.zero, Routes := none }

/-- Reading an `ApiService` from a JSON object under its field tags. -/
def ApiService.ofJson : Json → Option ApiService
  | Json.obj ms => do
    let name ← readField "" readString (member? "name" ms)
    let server ← readField ApiServer.zero ApiServer.ofJson (member? "server" ms)
    let routes ← readField none (readSlice ApiRoute.zero ApiRoute.ofJson) (member? "routes" ms)
    pure { Name := name, Server := server, Routes := routes }
  | _ => none

/-- Reading an `ApiParseResult` from a JSON object under its field tags, into a
fresh (zero) record. -/
def ApiParseResult.ofJson : Json → Option ApiParseResult
  | Json.obj ms => do
    let syntaxVersion ← readField "" readString (member? "syntax" ms)
    let info ← readField ApiInfo.zero ApiInfo.ofJson (member? "info" ms)
    let imports ← readField none (readSlice ApiImport.zero ApiImport.ofJson)
      (member? "imports" ms)
    let types ← readField none (readSlice ApiType.zero ApiType.ofJson) (member? "types" ms)
    let services ← readField none (readSlice ApiService.zero ApiService.ofJson)
      (member? "services" ms)
    pure
      { Syntax := syntaxVersion, Info := info, Imports := imports, Types := types,
        Services := services }
  | _ => none

/-- What an omit-if-empty slice is after writing and re-reading: nil when it
was empty, itself otherwise. -/
def omitSlice {α : Type} (s : Slice α) : Slice α :=
  if (sliceElems s).isEmpty then none else s

/-- What an omit-if-empty map is after writing and re-reading: nil when it was
empty, itself otherwise. -/
def omitMap (m : GoMap) : GoMap :=
  if mapLen m = 0 then none else m

/-- An `ApiTypeField` after writing and re-reading. -/
def ApiTypeField.reread (f : ApiTypeField) : ApiTypeField :=
  { f with Docs := omitSlice f.Docs }

/-- An `ApiType` after writing and re-reading. -/
def ApiType.reread (t : ApiType) : ApiType :=
  { t with
    Fields := t.Fields.map (List.map ApiTypeField.reread)
    Docs := omitSlice t.Docs
    Enums := omitMap t.Enums }

/-- An `ApiImport` after writing and re-reading. -/
def ApiImport.reread (i : ApiImport) : ApiImport :=
  { i with Types := omitSlice (i.Types.map (List.map ApiType.reread)) }

/-- An `ApiRoute` after writing and re-reading. -/
def ApiRoute.reread (r : ApiRoute) : ApiRoute :=
  { r with Docs := omitSlice r.Docs, AtServerAnnotation := omitMap r.AtServerAnnotation }

/-- An `ApiService` after writing and re-reading. -/
def ApiService.reread (s : ApiService) : ApiService :=
  { s with Routes := s.Routes.map (List.map ApiRoute.reread) }

/-- An `ApiParseResult` after writing and re-reading: every empty collection
in an omit-if-empty field has become nil, and nothing else has changed. -/
def ApiParseResult.reread (r : ApiParseResult) : ApiParseResult :=
  { r with
    Imports := r.Imports.map (List.map ApiImport.reread)
    Types := r.Types.map (List.map ApiType.reread)
    Services := r.Services.map (List.map ApiService.reread) }

/-! # Properties of the conversion -/

/-! ## Loops -/

/-- A loop that converts each element and folds the result into an accumulator:
when every element converts, the loop ends with the fold of the results. -/
theorem foldlM_convert {α β σ : Type} (f : α → Option β) (upd : σ → β → σ) (l : List α)
    (bs : List β) (h : List.Forall₂ (fun a b => f a = some b) l bs) (s : σ) :
    l.foldlM (fun s a => do let b ← f a; pure (upd s b)) s = some (bs.foldl upd s) := by
  induction h generalizing s with
  | nil => rfl
  | cons hab _ ih => simpa [List.foldlM_cons, hab] using ih _

/-- A conversion that succeeds on every element of a list has a list of
results, related to the elements position by position. -/
theorem forall₂_of_isSome {α β : Type} (f : α → Option β) (l : List α)
    (h : ∀ a ∈ l, (f a).isSome = true) :
    ∃ bs, List.Forall₂ (fun a b => f a = some b) l bs := by
  induction l with
  | nil => exact ⟨[], List.Forall₂.nil⟩
  | cons a l ih =>
    obtain ⟨bs, hbs⟩ := ih (fun x hx => h x (List.mem_cons_of_mem _ hx))
    obtain ⟨b, hb⟩ := Option.isSome_iff_exists.mp (h a (List.mem_cons_self _ _))
    exact ⟨b :: bs, List.Forall₂.cons hb hbs⟩

/-- Copying a list into a fresh one of the same length gives the list. -/
theorem goCopy_makeStrings (src : List String) :
    goCopy (makeStrings src.length) src = src := by
  simp [goCopy, makeStrings]

/-- The loop-free form of the docs copy: an initialised slice with the lines. -/
theorem docs_copy (src : List String) :
    (if src.length > 0 then some (goCopy (makeStrings src.length) src) else some [])
      = some src := by
  cases src with
  | nil => rfl
  | cons a l =>
    have h := goCopy_makeStrings (a :: l)
    simp only [List.length_cons] at h
    simp [h]

/-- A member that has a type converts to the field that copies it. -/
theorem convertMember_some (ext : SpecMethods) (member : Member) (t : TypeExpr)
    (b : Bool) (h : member.Type_ = some t) (hb : ext.isOptional member = some b) :
    convertMember ext member = some
      { Name := member.Name
        Type_ := ext.typeName t
        Tag := member.Tag
        Comment := member.Comment
        Docs := some member.Docs
        IsInline := member.IsInline
        Optional := b } := by
  have hd := docs_copy member.Docs
  unfold convertMember
  rw [h, hb]
  by_cases ht : member.Tag = "" <;> by_cases hc : member.Comment = "" <;>
    by_cases hl : member.Docs.length > 0 <;>
    simp [ht, hc, hl] at hd ⊢ <;> simp_all

/-- Appending the fields one by one to an initialised field slice. -/
theorem foldl_append_fields (fs : List ApiTypeField) (t : ApiType) (xs : List ApiTypeField)
    (h : t.Fields = some xs) :
    fs.foldl (fun t f => { t with Fields := goAppend t.Fields f }) t
      = { t with Fields := some (xs ++ fs) } := by
  induction fs generalizing t xs with
  | nil => cases t; simp_all
  | cons f fs ih =>
    rw [List.foldl_cons, ih _ (xs ++ [f]) (by simp [goAppend, sliceElems, h])]
    simp

/-- A struct definition whose members all convert is projected to the record
that copies its name, raw name and docs and lists the converted members. -/
theorem convertDefineStructToApiType_some (ext : SpecMethods) (d : DefineStruct)
    (fs : List ApiTypeField)
    (h : List.Forall₂ (fun m f => convertMember ext m = some f) d.Members fs) :
    convertDefineStructToApiType ext (some d) = some
      { Name := ext.structName d
        Package := ""
        TypeName := ""
        RawName := d.RawName
        Fields := some fs
        Docs := some d.Docs
        Enums := none } := by
  have hd := docs_copy d.Docs
  have key := fun t => foldlM_convert (convertMember ext)
    (fun (t : ApiType) f => { t with Fields := goAppend t.Fields f }) d.Members fs h t
  unfold convertDefineStructToApiType
  simp only [Option.bind_eq_bind, Option.some_bind, Option.pure_def] at key ⊢
  rw [key]
  by_cases hl : d.Docs.length > 0
  · simp only [hl, if_true] at hd ⊢
    rw [foldl_append_fields fs _ [] rfl]
    simp [hd]
  · simp only [hl, if_false] at hd ⊢
    rw [foldl_append_fields fs _ [] rfl]
    simp [hd]

/-- The members of a well-formed struct definition all convert. -/
theorem members_convert (ext : SpecMethods) (d : DefineStruct) (h : d.wellFormed ext = true) :
    ∃ fs, List.Forall₂ (fun m f => convertMember ext m = some f) d.Members fs := by
  apply forall₂_of_isSome
  intro m hm
  have hm2 : m.Type_.isSome = true ∧ (ext.isOptional m).isSome = true := by
    simp only [DefineStruct.wellFormed, List.all_eq_true, Bool.and_eq_true] at h
    exact h m hm
  obtain ⟨t, ht⟩ := Option.isSome_iff_exists.mp hm2.1
  obtain ⟨b, hb⟩ := Option.isSome_iff_exists.mp hm2.2
  rw [convertMember_some ext m t b ht hb]
  rfl

/-! ## The doc map of a route -/

/-- Storing a run of entries into a non-nil map never fails. -/
theorem foldlM_mapStore (l : List (Sigma (fun _ : String => String))) (m : StrMap) :
    l.foldlM (fun doc entry => mapStore doc entry.1 entry.2) (some m)
      = some (some (l.foldl (fun m entry => m.insert entry.1 entry.2) m)) := by
  induction l generalizing m with
  | nil => rfl
  | cons e l ih => simpa [List.foldlM_cons, mapStore] using ih _

/-- After storing a run of entries with distinct keys, a key reads as its entry
in the run if it has one and as it read before otherwise. -/
theorem lookup_foldl_insert (l : List (Sigma (fun _ : String => String))) (hl : l.NodupKeys)
    (m : StrMap) (k : String) :
    (l.foldl (fun m entry => m.insert entry.1 entry.2) m).lookup k
      = (l.dlookup k).orElse (fun _ => m.lookup k) := by
  induction l generalizing m with
  | nil => simp
  | cons e l ih =>
    obtain ⟨k', v'⟩ := e
    rw [List.nodupKeys_cons] at hl
    rw [List.foldl_cons, ih hl.2]
    by_cases hk : k = k'
    · subst hk
      have hnone : List.dlookup k l = none := List.dlookup_eq_none.mpr hl.1
      simp [hnone]
    · have hk2 : k' ≠ k := fun h => hk h.symm
      rw [List.dlookup_cons_ne l (a := k) ⟨k', v'⟩ hk, AList.lookup_insert_ne hk]

/-- Copying every entry of a map into an empty map gives a map that reads the
same at every key. -/
theorem lookup_copy (p : StrMap) (k : String) :
    (p.entries.foldl (fun (m : StrMap) entry => m.insert entry.1 entry.2) ∅).lookup k
      = p.lookup k := by
  rw [lookup_foldl_insert _ p.nodupKeys]
  cases h : List.dlookup k p.entries <;> simp [AList.lookup, h]

/-- The conversion of a route never fails. Every field of the result but the
doc map is given in closed form; the doc map is non-nil and is described by
what it reads at each key: the free text of `@doc` under "summary" when that
text is non-empty, and the `@doc` property of the key otherwise. -/
theorem convertRoute_some (ext : SpecMethods) (route : Route) :
    ∃ doc : StrMap,
      convertRoute ext route = some
        { Handler := route.Handler
          Method := route.Method
          Path := route.Path
          RequestType := if route.RequestType ≠ none then ext.requestTypeName route else ""
          ResponseType := if route.ResponseType ≠ none then ext.responseTypeName route else ""
          Doc := some doc
          Docs := some route.Docs
          AtServerAnnotation :=
            if route.AtServerAnnotation.Properties ≠ none then
              route.AtServerAnnotation.Properties
            else makeMap } ∧
      ∀ key, doc.lookup key =
        if route.AtDoc.Text ≠ "" ∧ key = "summary" then some route.AtDoc.Text
        else mapIndex route.AtDoc.Properties key := by
  have hd := docs_copy route.Docs
  have hsum : ∀ base : StrMap,
      (∀ key, base.lookup key = mapIndex route.AtDoc.Properties key) →
      ∀ key, (if route.AtDoc.Text ≠ "" then base.insert "summary" route.AtDoc.Text
          else base).lookup key =
        if route.AtDoc.Text ≠ "" ∧ key = "summary" then some route.AtDoc.Text
        else mapIndex route.AtDoc.Properties key := by
    intro base hl key
    by_cases ht : route.AtDoc.Text = ""
    · simp [ht, hl]
    · by_cases hk : key = "summary"
      · subst hk
        simp [ht]
      · simp [ht, hk, AList.lookup_insert_ne hk, hl]
  cases hp : route.AtDoc.Properties with
  | none =>
    refine ⟨if route.AtDoc.Text ≠ "" then (∅ : StrMap).insert "summary" route.AtDoc.Text else ∅,
      ?_, by simpa [hp] using hsum ∅ (fun key => by simp [hp, mapIndex])⟩
    by_cases h1 : route.RequestType = none <;> by_cases h2 : route.ResponseType = none <;>
      by_cases h3 : route.Docs.length > 0 <;>
      by_cases h4 : route.AtServerAnnotation.Properties = none <;>
      by_cases ht : route.AtDoc.Text = "" <;>
      simp only [h3, if_true, if_false] at hd <;>
      simp [convertRoute, h1, h2, h3, h4, ht, hp, hd, mapStore, makeMap]
  | some p =>
    have hf := foldlM_mapStore p.entries ∅
    refine ⟨if route.AtDoc.Text ≠ "" then
        (p.entries.foldl (fun (m : StrMap) entry => m.insert entry.1 entry.2) ∅).insert
          "summary" route.AtDoc.Text
      else p.entries.foldl (fun (m : StrMap) entry => m.insert entry.1 entry.2) ∅,
      ?_, by simpa [hp] using hsum _ (fun key => by simp [hp, mapIndex, lookup_copy])⟩
    by_cases h1 : route.RequestType = none <;> by_cases h2 : route.ResponseType = none <;>
      by_cases h3 : route.Docs.length > 0 <;>
      by_cases h4 : route.AtServerAnnotation.Properties = none <;>
      by_cases ht : route.AtDoc.Text = "" <;>
      simp only [h3, if_true, if_false] at hd <;>
      simp only [convertRoute, h1, h2, h3, h4, ht, hp, mapEntries, makeMap, ne_eq,
        not_true_eq_false, not_false_eq_true, if_true, if_false, reduceCtorEq, hf,
        Option.bind_eq_bind, Option.some_bind, Option.pure_def] <;>
      simp [mapStore, hd]

/-! ## The route groups -/

/-- Appending the routes one by one to an initialised route slice. -/
theorem foldl_append_routes (rs : List ApiRoute) (s : ApiService) (xs : List ApiRoute)
    (h : s.Routes = some xs) :
    rs.foldl (fun s r => { s with Routes := goAppend s.Routes r }) s
      = { s with Routes := some (xs ++ rs) } := by
  induction rs generalizing s xs with
  | nil => cases s; simp_all
  | cons r rs ih =>
    rw [List.foldl_cons, ih _ (xs ++ [r]) (by simp [goAppend, sliceElems, h])]
    simp

/-- Every route of a list converts. -/
theorem routes_convert (ext : SpecMethods) (routes : List Route) :
    ∃ rs, List.Forall₂ (fun route r => convertRoute ext route = some r) routes rs := by
  apply forall₂_of_isSome
  intro route _
  obtain ⟨doc, h, _⟩ := convertRoute_some ext route
  rw [h]
  rfl

/-- One route group: the server is replaced when the group has a non-nil
property map, and the converted routes are appended. -/
theorem convertGroup_some (ext : SpecMethods) (s : ApiService) (group : Group)
    (xs rs : List ApiRoute) (hs : s.Routes = some xs)
    (h : List.Forall₂ (fun route r => convertRoute ext route = some r) group.Routes rs) :
    convertGroup ext s group = some
      { Name := s.Name
        Server :=
          if group.Annotation.Properties ≠ none then convertServer group.Annotation.Properties
          else s.Server
        Routes := some (xs ++ rs) } := by
  have key := fun s => foldlM_convert (convertRoute ext)
    (fun (s : ApiService) r => { s with Routes := goAppend s.Routes r }) group.Routes rs h s
  unfold convertGroup
  simp only [Option.bind_eq_bind, Option.some_bind, Option.pure_def] at key ⊢
  rw [key]
  by_cases hp : group.Annotation.Properties = none
  · simp only [hp, ne_eq, not_true_eq_false, if_false]
    rw [foldl_append_routes rs _ xs hs]
  · simp only [hp, ne_eq, not_false_eq_true, if_true]
    rw [foldl_append_routes rs
      { Name := s.Name, Server := convertServer group.Annotation.Properties, Routes := s.Routes }
      xs hs]

/-- All route groups: the routes of all groups are converted and appended in
order, and the server is what the groups leave when each group with a non-nil
property map replaces it. -/
theorem groups_some (ext : SpecMethods) (groups : List Group) (s : ApiService)
    (xs : List ApiRoute) (hs : s.Routes = some xs) :
    ∃ rs, List.Forall₂ (fun route r => convertRoute ext route = some r)
        (groups.flatMap Group.Routes) rs ∧
      groups.foldlM (convertGroup ext) s = some
        { Name := s.Name
          Server :=
            groups.foldl
              (fun server group =>
                if group.Annotation.Properties ≠ none then
                  convertServer group.Annotation.Properties
                else server)
              s.Server
          Routes := some (xs ++ rs) } := by
  induction groups generalizing s xs with
  | nil => exact ⟨[], List.Forall₂.nil, by cases s; simp_all⟩
  | cons group groups ih =>
    obtain ⟨rs₁, h₁⟩ := routes_convert ext group.Routes
    obtain ⟨rs₂, h₂, hfold⟩ := ih
      { Name := s.Name
        Server :=
          if group.Annotation.Properties ≠ none then convertServer group.Annotation.Properties
          else s.Server
        Routes := some (xs ++ rs₁) } (xs ++ rs₁) rfl
    refine ⟨rs₁ ++ rs₂, ?_, ?_⟩
    · rw [List.flatMap_cons]
      exact List.rel_append h₁ h₂
    · rw [List.foldlM_cons, convertGroup_some ext s group xs rs₁ hs h₁]
      simpa using hfold

/-- The server left by the group loop is the one built from the last group with
a non-nil property map, and the initial one when there is no such group. -/
theorem server_fold_last (groups : List Group) (server : ApiServer) :
    groups.foldl
        (fun server group =>
          if group.Annotation.Properties ≠ none then convertServer group.Annotation.Properties
          else server)
        server
      = match (groups.filter (fun group => group.Annotation.Properties.isSome)).getLast? with
        | some group => convertServer group.Annotation.Properties
        | none => server := by
  induction groups generalizing server with
  | nil => rfl
  | cons group groups ih =>
    rw [List.foldl_cons, ih]
    cases hp : group.Annotation.Properties with
    | none => simp [List.filter_cons, hp]
    | some p =>
      simp only [List.filter_cons, hp, Option.isSome_some, if_true]
      cases hl : (groups.filter (fun group => group.Annotation.Properties.isSome)).getLast? with
      | none =>
        rw [List.getLast?_eq_none_iff] at hl
        simp [hl, hp]
      | some g =>
        have : (group :: groups.filter (fun group => group.Annotation.Properties.isSome)).getLast?
            = some g := by
          rw [List.getLast?_cons, hl]
          rfl
        simp [this]

/-! ## Imports and types -/

/-- The import loop: one `ApiImport` per import, in order, each with the path
only and an initialised empty type list. -/
theorem imports_fold (imports : List Import) (result : ApiParseResult) (xs : List ApiImport)
    (h : result.Imports = some xs) :
    imports.foldl
        (fun result imp =>
          let apiImport : ApiImport := { Value := imp.Value, Types := some [], AsPackage := "" }
          { result with Imports := goAppend result.Imports apiImport })
        result
      = { result with
          Imports := some (xs ++ imports.map
            (fun imp => { Value := imp.Value, AsPackage := "", Types := some [] })) } := by
  induction imports generalizing result xs with
  | nil => cases result; simp_all
  | cons imp imports ih =>
    rw [List.foldl_cons, ih _ (xs ++ [{ Value := imp.Value, AsPackage := "", Types := some [] }])
      (by simp [goAppend, sliceElems, h])]
    simp

/-- The type loop on a well-formed type list: the struct entries are converted
and appended in order, the other entries are skipped. -/
theorem types_fold (ext : SpecMethods) (types : List TypeEntry)
    (hwf : types.all (TypeEntry.wellFormed ext) = true) (result : ApiParseResult)
    (xs : List ApiType) (h : result.Types = some xs) :
    ∃ ts, List.Forall₂ (fun p t => convertDefineStructToApiType ext p = some t)
        (assertedStructs types) ts ∧
      types.foldlM
          (fun result typ =>
            match typ with
            | TypeEntry.structPtr defineStruct => do
              let apiType ← convertDefineStructToApiType ext defineStruct
              pure { result with Types := goAppend result.Types apiType }
            | _ => pure result)
          result
        = some { result with Types := some (xs ++ ts) } := by
  induction types generalizing result xs with
  | nil => exact ⟨[], List.Forall₂.nil, by cases result; simp_all⟩
  | cons typ types ih =>
    rw [List.all_cons, Bool.and_eq_true] at hwf
    cases typ with
    | nilType =>
      obtain ⟨ts, hts, hfold⟩ := ih hwf.2 result xs h
      exact ⟨ts, by simpa [assertedStructs] using hts, by simpa [List.foldlM_cons] using hfold⟩
    | other t =>
      obtain ⟨ts, hts, hfold⟩ := ih hwf.2 result xs h
      exact ⟨ts, by simpa [assertedStructs] using hts, by simpa [List.foldlM_cons] using hfold⟩
    | structVal d =>
      obtain ⟨ts, hts, hfold⟩ := ih hwf.2 result xs h
      exact ⟨ts, by simpa [assertedStructs] using hts, by simpa [List.foldlM_cons] using hfold⟩
    | structPtr p =>
      cases p with
      | none => simp [TypeEntry.wellFormed] at hwf
      | some d =>
        obtain ⟨fs, hfs⟩ := members_convert ext d (by simpa [TypeEntry.wellFormed] using hwf.1)
        obtain ⟨t, hd⟩ : ∃ t, convertDefineStructToApiType ext (some d) = some t :=
          ⟨_, convertDefineStructToApiType_some ext d fs hfs⟩
        obtain ⟨ts, hts, hfold⟩ := ih hwf.2 { result with Types := some (xs ++ [t]) } _ rfl
        refine ⟨t :: ts, ?_, ?_⟩
        · simp only [assertedStructs, List.filterMap_cons]
          exact List.Forall₂.cons hd (by simpa [assertedStructs] using hts)
        · simp only [List.foldlM_cons, hd, Option.bind_eq_bind, Option.some_bind,
            Option.pure_def, goAppend, sliceElems, h]
          simpa using hfold

/-! ## The whole conversion -/

/-- On a document the parser can produce, the conversion returns a result, and
the result is given field by field: the info by the two sourcing modes, an
output import per import, the converted struct entries, and one service holding the
server of the last annotated group and the converted routes of all groups. -/
theorem convertToApiParseResult_some (ext : SpecMethods) (doc : ApiSpec)
    (hwf : doc.wellFormed ext = true) :
    ∃ ts rs,
      List.Forall₂ (fun p t => convertDefineStructToApiType ext p = some t)
        (assertedStructs doc.Types) ts ∧
      List.Forall₂ (fun route r => convertRoute ext route = some r)
        (doc.Service.Groups.flatMap Group.Routes) rs ∧
      convertToApiParseResult ext (some doc) = some
        { Syntax := doc.Syntax.Version
          Info :=
            if mapLen doc.Info.Properties = 0 then
              { Title := doc.Info.Title
                Desc := doc.Info.Desc
                Author := doc.Info.Author
                Date := getInfoValue doc.Info.Properties "date"
                Version := doc.Info.Version
                Email := doc.Info.Email
                Properties := doc.Info.Properties }
            else
              { Title := getInfoValue doc.Info.Properties "title"
                Desc := getInfoValue doc.Info.Properties "desc"
                Author := getInfoValue doc.Info.Properties "author"
                Date := getInfoValue doc.Info.Properties "date"
                Version := getInfoValue doc.Info.Properties "version"
                Email := getInfoValue doc.Info.Properties "email"
                Properties := doc.Info.Properties }
          Imports := some (doc.Imports.map
            (fun imp => { Value := imp.Value, AsPackage := "", Types := some [] }))
          Types := some ts
          Services := some
            [{ Name := doc.Service.Name
               Server :=
                 match (doc.Service.Groups.filter
                   (fun group => group.Annotation.Properties.isSome)).getLast? with
                 | some group => convertServer group.Annotation.Properties
                 | none => ApiServer.zero
               Routes := some rs }] } := by
  obtain ⟨rs, hrs, hgroups⟩ := groups_some ext doc.Service.Groups
    { Name := doc.Service.Name, Routes := some [], Server := ApiServer.zero } [] rfl
  rw [server_fold_last] at hgroups
  have himports := fun result => imports_fold doc.Imports result []
  by_cases hlen : mapLen doc.Info.Properties = 0
  · obtain ⟨ts, hts, htypes⟩ := types_fold ext doc.Types hwf
      { Syntax := doc.Syntax.Version
        Info :=
          { Title := doc.Info.Title
            Desc := doc.Info.Desc
            Author := doc.Info.Author
            Date := getInfoValue doc.Info.Properties "date"
            Version := doc.Info.Version
            Email := doc.Info.Email
            Properties := doc.Info.Properties }
        Imports := some (doc.Imports.map
          (fun imp => { Value := imp.Value, AsPackage := "", Types := some [] }))
        Types := some []
        Services := some [] } [] rfl
    refine ⟨ts, rs, hts, hrs, ?_⟩
    unfold convertToApiParseResult
    simp only [Option.bind_eq_bind, Option.some_bind, Option.pure_def, hlen, if_true]
    rw [himports _ rfl]
    simp only [List.nil_append, Option.bind_eq_bind, Option.pure_def] at htypes ⊢
    rw [htypes]
    simp only [Option.some_bind, hgroups]
    simp [goAppend, sliceElems]
  · obtain ⟨ts, hts, htypes⟩ := types_fold ext doc.Types hwf
      { Syntax := doc.Syntax.Version
        Info :=
          { Title := getInfoValue doc.Info.Properties "title"
            Desc := getInfoValue doc.Info.Properties "desc"
            Author := getInfoValue doc.Info.Properties "author"
            Date := getInfoValue doc.Info.Properties "date"
            Version := getInfoValue doc.Info.Properties "version"
            Email := getInfoValue doc.Info.Properties "email"
            Properties := doc.Info.Properties }
        Imports := some (doc.Imports.map
          (fun imp => { Value := imp.Value, AsPackage := "", Types := some [] }))
        Types := some []
        Services := some [] } [] rfl
    refine ⟨ts, rs, hts, hrs, ?_⟩
    unfold convertToApiParseResult
    simp only [Option.bind_eq_bind, Option.some_bind, Option.pure_def, hlen, if_false]
    rw [himports _ rfl]
    simp only [List.nil_append, Option.bind_eq_bind, Option.pure_def] at htypes ⊢
    rw [htypes]
    simp only [Option.some_bind, hgroups]
    simp [goAppend, sliceElems]

/-! ## The claims -/

/-- The lookup helper reads the key, with the empty string for a missing key. -/
theorem getInfoValue_eq (properties : GoMap) (key : String) :
    getInfoValue properties key = (mapIndex properties key).getD "" := by
  unfold getInfoValue
  cases mapIndex properties key <;> rfl

/-- The server lookup helper reads the key, with the empty string for a missing key. -/
theorem getServerValue_eq (properties : GoMap) (key : String) :
    getServerValue properties key = (mapIndex properties key).getD "" := by
  unfold getServerValue
  cases mapIndex properties key <;> rfl

/-- An empty map (nil or without entries) holds no key. -/
theorem mapIndex_of_mapLen_zero (m : GoMap) (h : mapLen m = 0) (key : String) :
    mapIndex m key = none := by
  cases m with
  | none => rfl
  | some entries =>
    have he : entries.entries = [] := List.length_eq_zero.mp h
    simp [mapIndex, AList.lookup, he]

/-- C1: for a document the parser can produce whose metadata property map is
non-empty, the conversion returns a result whose info has title, desc, author,
date, version and email equal to the lookups of the keys "title", "desc",
"author", "date", "version" and "email" in that map, the empty string standing
for a missing key whatever the legacy field of the same name holds, and whose
properties is the map itself. -/
theorem info_from_properties (ext : SpecMethods) (doc : ApiSpec)
    (hwf : doc.wellFormed ext = true) (hne : mapLen doc.Info.Properties ≠ 0) :
    ∃ r, convertToApiParseResult ext (some doc) = some r ∧
      r.Info.Title = (mapIndex doc.Info.Properties "title").getD "" ∧
      r.Info.Desc = (mapIndex doc.Info.Properties "desc").getD "" ∧
      r.Info.Author = (mapIndex doc.Info.Properties "author").getD "" ∧
      r.Info.Date = (mapIndex doc.Info.Properties "date").getD "" ∧
      r.Info.Version = (mapIndex doc.Info.Properties "version").getD "" ∧
      r.Info.Email = (mapIndex doc.Info.Properties "email").getD "" ∧
      r.Info.Properties = doc.Info.Properties := by
  obtain ⟨ts, rs, _, _, h⟩ := convertToApiParseResult_some ext doc hwf
  refine ⟨_, h, ?_⟩
  simp [hne, getInfoValue_eq]

/-- The sample document has a non-empty property map without the key "title"
and a non-empty legacy title; C1 applies to it, so its output title is the
lookup of "title", which is the empty string. -/
theorem info_from_properties_witness :
    sampleDoc.wellFormed sampleMethods = true ∧ mapLen sampleDoc.Info.Properties ≠ 0 ∧
    sampleDoc.Info.Title = "legacy title" ∧
    (mapIndex sampleDoc.Info.Properties "title").getD "" = "" ∧
    ∃ r, convertToApiParseResult sampleMethods (some sampleDoc) = some r ∧
      r.Info.Title = (mapIndex sampleDoc.Info.Properties "title").getD "" ∧
      r.Info.Desc = (mapIndex sampleDoc.Info.Properties "desc").getD "" ∧
      r.Info.Author = (mapIndex sampleDoc.Info.Properties "author").getD "" ∧
      r.Info.Date = (mapIndex sampleDoc.Info.Properties "date").getD "" ∧
      r.Info.Version = (mapIndex sampleDoc.Info.Properties "version").getD "" ∧
      r.Info.Email = (mapIndex sampleDoc.Info.Properties "email").getD "" ∧
      r.Info.Properties = sampleDoc.Info.Properties :=
  ⟨by decide, by decide, by decide, by decide,
    info_from_properties sampleMethods sampleDoc (by decide) (by decide)⟩

/-- C2: for a document the parser can produce whose metadata property map is
empty (nil or without entries), the conversion returns a result whose info has
title, desc, author, version and email equal to the legacy fields, an empty
date, and an empty properties (the document's own empty map). -/
theorem info_from_legacy (ext : SpecMethods) (doc : ApiSpec)
    (hwf : doc.wellFormed ext = true) (hempty : mapLen doc.Info.Properties = 0) :
    ∃ r, convertToApiParseResult ext (some doc) = some r ∧
      r.Info.Title = doc.Info.Title ∧
      r.Info.Desc = doc.Info.Desc ∧
      r.Info.Author = doc.Info.Author ∧
      r.Info.Version = doc.Info.Version ∧
      r.Info.Email = doc.Info.Email ∧
      r.Info.Date = "" ∧
      r.Info.Properties = doc.Info.Properties ∧
      mapLen r.Info.Properties = 0 := by
  obtain ⟨ts, rs, _, _, h⟩ := convertToApiParseResult_some ext doc hwf
  refine ⟨_, h, ?_⟩
  simp [hempty, getInfoValue_eq, mapIndex_of_mapLen_zero _ hempty]

/-- The legacy document has a nil property map; C2 applies to it. -/
theorem info_from_legacy_witness :
    legacyDoc.wellFormed sampleMethods = true ∧ mapLen legacyDoc.Info.Properties = 0 ∧
    ∃ r, convertToApiParseResult sampleMethods (some legacyDoc) = some r ∧
      r.Info.Title = "T" ∧
      r.Info.Desc = "D" ∧
      r.Info.Author = "A" ∧
      r.Info.Version = "1.0" ∧
      r.Info.Email = "e@x" ∧
      r.Info.Date = "" ∧
      r.Info.Properties = legacyDoc.Info.Properties ∧
      mapLen r.Info.Properties = 0 :=
  ⟨by decide, by decide, info_from_legacy sampleMethods legacyDoc (by decide) (by decide)⟩

/-- C3 fails as stated: with `auth` present and empty and `jwt = x`, the claim
gives the value of `auth`, the empty string, while the code falls through to
`jwt` and gives `x`, for the group alone and in the output of the whole
conversion. -/
theorem auth_presence_counterexample :
    mapIndex authEmptyProperties "auth" = some "" ∧
    mapIndex authEmptyProperties "jwt" = some "x" ∧
    (convertServer authEmptyProperties).Auth = "x" ∧
    (convertToApiParseResult sampleMethods (some authEmptyDoc)).map
      (fun r => (sliceElems r.Services).map (fun s => s.Server.Auth)) = some ["x"] ∧
    ¬ ((convertServer authEmptyProperties).Auth =
      match mapIndex authEmptyProperties "auth" with
      | some a => a
      | none => (mapIndex authEmptyProperties "jwt").getD "") := by
  decide

/-- C3, amended: for a route group with a non-nil `@server` property map, the
auth computed for the group is the value of the key "auth" if that key is
present with a non-empty value; otherwise (the key is absent, or present with
the empty string) it is the value of the key "jwt" if that key is present, and
the empty string if not. -/
theorem auth_alias_rule (properties : StrMap) :
    (convertServer (some properties)).Auth =
      match mapIndex (some properties) "auth" with
      | some a => if a = "" then (mapIndex (some properties) "jwt").getD "" else a
      | none => (mapIndex (some properties) "jwt").getD "" := by
  simp only [convertServer, getServerValue_eq]
  cases mapIndex (some properties) "auth" with
  | none => simp
  | some a => by_cases ha : a = "" <;> simp [ha]

/-- C4: in a `@server` property map where "auth" has a non-empty value, the
auth built from the map is that value whatever the map holds under "jwt"; and
in a property map without the key "auth" where "jwt" has the value `x`, the
auth built from the map is `x`. -/
theorem auth_first_match (properties : GoMap) :
    (∀ a, mapIndex properties "auth" = some a → a ≠ "" →
      (convertServer properties).Auth = a) ∧
    (∀ x, mapIndex properties "auth" = none → mapIndex properties "jwt" = some x →
      (convertServer properties).Auth = x) := by
  constructor
  · intro a ha hne
    simp [convertServer, getServerValue_eq, ha, hne]
  · intro x ha hx
    simp [convertServer, getServerValue_eq, ha, hx]

/-- The two examples of C4: `auth = jwt-custom` with `jwt = other` gives
`jwt-custom`, and `jwt = x` alone gives `x`. -/
theorem auth_first_match_witness :
    (mapIndex authBothProperties "auth" = some "jwt-custom" ∧
      mapIndex authBothProperties "jwt" = some "other" ∧
      (convertServer authBothProperties).Auth = "jwt-custom") ∧
    (mapIndex jwtOnlyProperties "auth" = none ∧
      mapIndex jwtOnlyProperties "jwt" = some "x" ∧
      (convertServer jwtOnlyProperties).Auth = "x") :=
  ⟨⟨by decide, by decide,
      (auth_first_match authBothProperties).1 "jwt-custom" (by decide) (by decide)⟩,
    ⟨by decide, by decide,
      (auth_first_match jwtOnlyProperties).2 "x" (by decide) (by decide)⟩⟩

/-- C5: for a document the parser can produce, the conversion returns a result
with a single service whose routes are the routes of all groups, group after
group and in declaration order inside each group: there are as many as the
group sizes add up to, and the route at each position is the conversion of the
route at that position of the flattened input. The conversion of a route does
not see the group or its `@server` annotation. -/
theorem routes_flattened (ext : SpecMethods) (doc : ApiSpec) (hwf : doc.wellFormed ext = true) :
    ∃ r svc rs, convertToApiParseResult ext (some doc) = some r ∧
      r.Services = some [svc] ∧
      svc.Routes = some rs ∧
      rs.length = (doc.Service.Groups.map (fun group => group.Routes.length)).sum ∧
      List.Forall₂ (fun route apiRoute => convertRoute ext route = some apiRoute)
        (doc.Service.Groups.flatMap Group.Routes) rs := by
  obtain ⟨ts, rs, _, hrs, h⟩ := convertToApiParseResult_some ext doc hwf
  refine ⟨_, _, rs, h, rfl, rfl, ?_, hrs⟩
  rw [← hrs.length_eq, List.flatMap, List.length_flatten, List.map_map]
  rfl

/-- The sample document has two groups of sizes 2 and 3, both annotated; C5
applies to it, and its output has exactly 5 routes, in the original order. -/
theorem routes_flattened_witness :
    sampleDoc.wellFormed sampleMethods = true ∧
    sampleDoc.Service.Groups.map (fun group => group.Routes.length) = [2, 3] ∧
    (convertToApiParseResult sampleMethods (some sampleDoc)).map
      (fun r => (sliceElems r.Services).map
        (fun svc => (sliceElems svc.Routes).map (fun apiRoute => apiRoute.Handler)))
      = some [["a1", "a2", "b1", "ping", "b3"]] ∧
    ∃ r svc rs, convertToApiParseResult sampleMethods (some sampleDoc) = some r ∧
      r.Services = some [svc] ∧
      svc.Routes = some rs ∧
      rs.length = (sampleDoc.Service.Groups.map (fun group => group.Routes.length)).sum ∧
      List.Forall₂ (fun route apiRoute => convertRoute sampleMethods route = some apiRoute)
        (sampleDoc.Service.Groups.flatMap Group.Routes) rs :=
  ⟨by decide, by decide, by decide, routes_flattened sampleMethods sampleDoc (by decide)⟩

/-- C6: for a document the parser can produce, the server of the output service
is determined by the last route group, in declaration order, whose `@server`
property map is non-nil: group, prefix and timeout are the lookups of those
keys in that map (the empty string for a missing key), auth is the auth built
from that map and middleware the middleware built from that map. Groups with a
nil property map do not count, and without any group with a non-nil property
map the server is the zero value. -/
theorem server_last_group (ext : SpecMethods) (doc : ApiSpec) (hwf : doc.wellFormed ext = true) :
    ∃ r svc, convertToApiParseResult ext (some doc) = some r ∧
      r.Services = some [svc] ∧
      svc.Server =
        match (doc.Service.Groups.filter
          (fun group => group.Annotation.Properties.isSome)).getLast? with
        | some group =>
          { Group := (mapIndex group.Annotation.Properties "group").getD ""
            Prefix := (mapIndex group.Annotation.Properties "prefix").getD ""
            Auth := (convertServer group.Annotation.Properties).Auth
            Middleware := getServerValues group.Annotation.Properties "middleware"
            Timeout := (mapIndex group.Annotation.Properties "timeout").getD "" }
        | none => ApiServer.zero := by
  obtain ⟨ts, rs, _, _, h⟩ := convertToApiParseResult_some ext doc hwf
  refine ⟨_, _, h, rfl, ?_⟩
  cases (doc.Service.Groups.filter
    (fun group => group.Annotation.Properties.isSome)).getLast? with
  | none => rfl
  | some group => simp [convertServer, getServerValue_eq]

/-- In the sample document both groups are annotated, the first with a group
and an auth, the second with a prefix and a middleware; C6 applies to it, and
the output server is built from the second group alone. -/
theorem server_last_group_witness :
    sampleDoc.wellFormed sampleMethods = true ∧
    (convertToApiParseResult sampleMethods (some sampleDoc)).map
      (fun r => (sliceElems r.Services).map (fun svc => svc.Server))
      = some [{ Group := "", Prefix := "/v1", Auth := "", Middleware := some ["A,B"],
                Timeout := "" }] ∧
    ∃ r svc, convertToApiParseResult sampleMethods (some sampleDoc) = some r ∧
      r.Services = some [svc] ∧
      svc.Server =
        match (sampleDoc.Service.Groups.filter
          (fun group => group.Annotation.Properties.isSome)).getLast? with
        | some group =>
          { Group := (mapIndex group.Annotation.Properties "group").getD ""
            Prefix := (mapIndex group.Annotation.Properties "prefix").getD ""
            Auth := (convertServer group.Annotation.Properties).Auth
            Middleware := getServerValues group.Annotation.Properties "middleware"
            Timeout := (mapIndex group.Annotation.Properties "timeout").getD "" }
        | none => ApiServer.zero :=
  ⟨by decide, by decide, server_last_group sampleMethods sampleDoc (by decide)⟩

/-- The output types are the entries of the type list that pass the type
assertion `typ.(*spec.DefineStruct)`, in their order, each converted by
`convertDefineStructToApiType`; every other entry, a struct definition held by
value among them, is skipped. -/
theorem types_asserted_only (ext : SpecMethods) (doc : ApiSpec)
    (hwf : doc.wellFormed ext = true) :
    ∃ r ts, convertToApiParseResult ext (some doc) = some r ∧
      r.Types = some ts ∧
      ts.length = (assertedStructs doc.Types).length ∧
      List.Forall₂ (fun p t => convertDefineStructToApiType ext p = some t)
        (assertedStructs doc.Types) ts := by
  obtain ⟨ts, rs, hts, _, h⟩ := convertToApiParseResult_some ext doc hwf
  exact ⟨_, ts, h, rfl, hts.length_eq.symm, hts⟩

/-- C7 at a document whose type list is one struct definition held by value, as
the parser stores it, and one alias: one entry is struct-shaped, it does not
pass the assertion on the pointer type, and the conversion returns an
initialised type list without any type, where the claim has exactly one. -/
theorem types_by_value_skipped :
    byValueDoc.Types = [TypeEntry.structVal sampleStruct, TypeEntry.other ⟨"Alias"⟩] ∧
    (byValueDoc.Types.filter TypeEntry.structShaped).length = 1 ∧
    (assertedStructs byValueDoc.Types).length = 0 ∧
    (convertToApiParseResult sampleMethods (some byValueDoc)).map
      (fun r => (r.Types.isSome, (sliceElems r.Types).length)) = some (true, 0) := by
  refine ⟨by decide, by decide, by decide, by decide⟩

/-- C10: for a document the parser can produce, the output imports are one
per import of the document, in order, each with the import's path as value, an
empty package alias and an initialised empty type list. -/
theorem imports_projected (ext : SpecMethods) (doc : ApiSpec) (hwf : doc.wellFormed ext = true) :
    ∃ r imports, convertToApiParseResult ext (some doc) = some r ∧
      r.Imports = some imports ∧
      imports.length = doc.Imports.length ∧
      imports = doc.Imports.map
        (fun imp => { Value := imp.Value, AsPackage := "", Types := some [] }) := by
  obtain ⟨ts, rs, _, _, h⟩ := convertToApiParseResult_some ext doc hwf
  exact ⟨_, _, h, rfl, by simp, rfl⟩

/-- The sample document imports two files; C10 applies to it. -/
theorem imports_projected_witness :
    sampleDoc.wellFormed sampleMethods = true ∧
    (convertToApiParseResult sampleMethods (some sampleDoc)).map (fun r => r.Imports)
      = some (some [{ Value := "base.api", AsPackage := "", Types := some [] },
                    { Value := "user.api", AsPackage := "", Types := some [] }]) ∧
    ∃ r imports, convertToApiParseResult sampleMethods (some sampleDoc) = some r ∧
      r.Imports = some imports ∧
      imports.length = sampleDoc.Imports.length ∧
      imports = sampleDoc.Imports.map
        (fun imp => { Value := imp.Value, AsPackage := "", Types := some [] }) :=
  ⟨by decide, by decide, imports_projected sampleMethods sampleDoc (by decide)⟩

/-- C8: the conversion of a route returns a route whose doc is a non-nil map
that reads, at every key, as follows: under "summary" the free text of `@doc`
when that text is non-empty, whatever the key/value pairs hold under
"summary"; at every other key, and at "summary" too when the free text is
empty, what the `@doc` key/value map holds (nothing when that map is nil). So
with an empty free text the doc is the key/value map and gains no "summary". -/
theorem doc_summary_merge (ext : SpecMethods) (route : Route) :
    ∃ apiRoute doc, convertRoute ext route = some apiRoute ∧
      apiRoute.Doc = some doc ∧
      ∀ key, doc.lookup key =
        if route.AtDoc.Text ≠ "" ∧ key = "summary" then some route.AtDoc.Text
        else mapIndex route.AtDoc.Properties key := by
  obtain ⟨doc, h, hlookup⟩ := convertRoute_some ext route
  exact ⟨_, doc, h, rfl, hlookup⟩

/-- The example of C8: the properties `desc = x` with the free text `hello`
give a doc with the two entries `desc = x` and `summary = hello`. -/
theorem doc_summary_merge_witness :
    mapIndex docRoute.AtDoc.Properties "desc" = some "x" ∧
    mapLen docRoute.AtDoc.Properties = 1 ∧
    docRoute.AtDoc.Text = "hello" ∧
    (convertRoute sampleMethods docRoute).map
      (fun apiRoute =>
        (mapIndex apiRoute.Doc "desc", mapIndex apiRoute.Doc "summary", mapLen apiRoute.Doc))
      = some (some "x", some "hello", 2) ∧
    ∃ apiRoute doc, convertRoute sampleMethods docRoute = some apiRoute ∧
      apiRoute.Doc = some doc ∧
      ∀ key, doc.lookup key =
        if docRoute.AtDoc.Text ≠ "" ∧ key = "summary" then some docRoute.AtDoc.Text
        else mapIndex docRoute.AtDoc.Properties key :=
  ⟨by decide, by decide, by decide, by decide, doc_summary_merge sampleMethods docRoute⟩

/-- C9 fails as stated: `badTagStruct` is a struct definition whose one member
has a type and the tag `json:id`; `IsOptional()` does not return on that tag,
so `convertDefineStructToApiType` returns no type, and no field that copies the
tag. -/
theorem struct_bad_tag_counterexample :
    badTagStruct.membersTyped = true ∧
    badTagStruct.Members.map (fun member => member.Tag) = ["json:id"] ∧
    badTagStruct.Members.map sampleMethods.isOptional = [none] ∧
    convertDefineStructToApiType sampleMethods (some badTagStruct) = none := by
  refine ⟨by decide, by decide, by decide, rfl⟩

/-- C9, amended: for a struct definition whose members all have a type and a
tag on which `IsOptional()` returns, `convertDefineStructToApiType` returns a
type whose name, raw name and docs are the definition's and whose fields are as
many as the members, the field at each position copying the member at that
position: name, rendered type, inline flag, optional flag, docs, and tag and
comment, which equal the member's in every such case, empty or not. -/
theorem struct_projected (ext : SpecMethods) (d : DefineStruct) (hwf : d.wellFormed ext = true) :
    ∃ t fs, convertDefineStructToApiType ext (some d) = some t ∧
      t.Name = ext.structName d ∧
      t.RawName = d.RawName ∧
      t.Docs = some d.Docs ∧
      t.Fields = some fs ∧
      fs.length = d.Members.length ∧
      List.Forall₂
        (fun member field =>
          field.Name = member.Name ∧
          member.Type_.map ext.typeName = some field.Type_ ∧
          field.IsInline = member.IsInline ∧
          ext.isOptional member = some field.Optional ∧
          field.Docs = some member.Docs ∧
          field.Tag = member.Tag ∧
          field.Comment = member.Comment)
        d.Members fs := by
  obtain ⟨fs, hfs⟩ := members_convert ext d hwf
  refine ⟨_, fs, convertDefineStructToApiType_some ext d fs hfs, rfl, rfl, rfl, rfl,
    hfs.length_eq.symm, ?_⟩
  refine hfs.imp ?_
  intro member field h
  cases ht : member.Type_ with
  | none => simp [convertMember, ht] at h
  | some t =>
    cases hb : ext.isOptional member with
    | none => simp [convertMember, ht, hb] at h
    | some b =>
      rw [convertMember_some ext member t b ht hb] at h
      cases h
      simp

/-- The sample struct has a member with a tag that parses and a comment, and
one with neither; the amended C9 applies to it. -/
theorem struct_projected_witness :
    sampleStruct.wellFormed sampleMethods = true ∧
    (convertDefineStructToApiType sampleMethods (some sampleStruct)).map
      (fun t => (sliceElems t.Fields).map (fun field => (field.Name, field.Tag, field.Comment)))
      = some [("Id", "json:\"id\"", "// id"), ("Base", "", "")] ∧
    ∃ t fs, convertDefineStructToApiType sampleMethods (some sampleStruct) = some t ∧
      t.Name = sampleMethods.structName sampleStruct ∧
      t.RawName = sampleStruct.RawName ∧
      t.Docs = some sampleStruct.Docs ∧
      t.Fields = some fs ∧
      fs.length = sampleStruct.Members.length ∧
      List.Forall₂
        (fun member field =>
          field.Name = member.Name ∧
          member.Type_.map sampleMethods.typeName = some field.Type_ ∧
          field.IsInline = member.IsInline ∧
          sampleMethods.isOptional member = some field.Optional ∧
          field.Docs = some member.Docs ∧
          field.Tag = member.Tag ∧
          field.Comment = member.Comment)
        sampleStruct.Members fs :=
  ⟨by decide, by decide, struct_projected sampleMethods sampleStruct (by decide)⟩

/-- C11: the conversion of a route returns a route whose request type is the
parser's request type name when the route declares a request type and the
empty string when it declares none, and whose response type is the parser's
response type name when the route declares a response type and the empty
string when it declares none; each is decided by its own declaration alone. -/
theorem body_types_projected (ext : SpecMethods) (route : Route) :
    ∃ apiRoute, convertRoute ext route = some apiRoute ∧
      apiRoute.RequestType =
        (if route.RequestType.isSome then ext.requestTypeName route else "") ∧
      apiRoute.ResponseType =
        (if route.ResponseType.isSome then ext.responseTypeName route else "") := by
  obtain ⟨doc, h, _⟩ := convertRoute_some ext route
  refine ⟨_, h, ?_, ?_⟩
  · cases route.RequestType <;> simp
  · cases route.ResponseType <;> simp

/-- A route with a request type and no response type: the request type is
named and the response type is the empty string. -/
theorem body_types_projected_witness :
    bodyRoute.RequestType = some ⟨"CreateReq"⟩ ∧ bodyRoute.ResponseType = none ∧
    (convertRoute sampleMethods bodyRoute).map
      (fun apiRoute => (apiRoute.RequestType, apiRoute.ResponseType))
      = some ("CreateReq", "") ∧
    ∃ apiRoute, convertRoute sampleMethods bodyRoute = some apiRoute ∧
      apiRoute.RequestType =
        (if bodyRoute.RequestType.isSome then sampleMethods.requestTypeName bodyRoute
          else "") ∧
      apiRoute.ResponseType =
        (if bodyRoute.ResponseType.isSome then sampleMethods.responseTypeName bodyRoute
          else "") :=
  ⟨by decide, by decide, by decide, body_types_projected sampleMethods bodyRoute⟩

/-- C12: for a document the parser can produce, with or without route groups
and routes, the output services hold exactly one service, and its name is the
document's service name. -/
theorem single_service (ext : SpecMethods) (doc : ApiSpec) (hwf : doc.wellFormed ext = true) :
    ∃ r svc, convertToApiParseResult ext (some doc) = some r ∧
      r.Services = some [svc] ∧
      (sliceElems r.Services).length = 1 ∧
      svc.Name = doc.Service.Name := by
  obtain ⟨ts, rs, _, _, h⟩ := convertToApiParseResult_some ext doc hwf
  exact ⟨_, _, h, rfl, rfl, rfl⟩

/-- A document without route groups still gives one service, with its name and
no routes. -/
theorem single_service_witness :
    noGroupsDoc.wellFormed sampleMethods = true ∧ noGroupsDoc.Service.Groups = [] ∧
    (convertToApiParseResult sampleMethods (some noGroupsDoc)).map
      (fun r => (sliceElems r.Services).map (fun svc => (svc.Name, svc.Routes)))
      = some [("empty-api", some [])] ∧
    ∃ r svc, convertToApiParseResult sampleMethods (some noGroupsDoc) = some r ∧
      r.Services = some [svc] ∧
      (sliceElems r.Services).length = 1 ∧
      svc.Name = noGroupsDoc.Service.Name :=
  ⟨by decide, by decide, by decide, single_service sampleMethods noGroupsDoc (by decide)⟩

/-- C14 fails as stated: `badTagDoc` is a non-nil document in which the one
struct entry is a non-nil definition and its member has a type, but
`IsOptional()` does not return on the member's tag `json:id`, and the
conversion returns no result. -/
theorem conversion_total_counterexample :
    badTagDoc.membersTyped = true ∧
    badTagStruct.Members.map sampleMethods.isOptional = [none] ∧
    badTagDoc.wellFormed sampleMethods = false ∧
    convertToApiParseResult sampleMethods (some badTagDoc) = none := by
  refine ⟨by decide, by decide, by decide, rfl⟩

/-- C14, amended: the conversion is total on the non-nil documents in which
every pointer to a struct definition in the type list is non-nil and every
member of such a definition has a type and a tag on which `IsOptional()`
returns: it returns a result; no nil pointer or nil interface is dereferenced,
no nil map is stored into and no call of the parser's methods fails. The
function has a single result, the converted document, and no error result. -/
theorem conversion_total (ext : SpecMethods) (doc : ApiSpec)
    (hwf : doc.wellFormed ext = true) :
    ∃ r, convertToApiParseResult ext (some doc) = some r := by
  obtain ⟨ts, rs, _, _, h⟩ := convertToApiParseResult_some ext doc hwf
  exact ⟨_, h⟩

/-- The sample document has a pointer to a struct definition whose members have
a type and a tag that parses, and the amended C14 applies to it. -/
theorem conversion_total_witness :
    sampleDoc.wellFormed sampleMethods = true ∧
    ∃ r, convertToApiParseResult sampleMethods (some sampleDoc) = some r :=
  ⟨by decide, conversion_total sampleMethods sampleDoc (by decide)⟩

/-- C16: for every `@server` property map, `getServerValues` at "middleware"
returns the empty sequence when the key is absent and otherwise the sequence
holding the one raw value of the key, so a value naming several middlewares
stays one element; and for a document the parser can produce the middleware of
the output server never has more than one element. -/
theorem middleware_single_value (ext : SpecMethods) (properties : GoMap) :
    getServerValues properties "middleware" =
      (match mapIndex properties "middleware" with
      | none => some []
      | some value => some [value]) ∧
    ∀ doc : ApiSpec, doc.wellFormed ext = true →
      ∃ r svc, convertToApiParseResult ext (some doc) = some r ∧
        r.Services = some [svc] ∧
        (sliceElems svc.Server.Middleware).length ≤ 1 := by
  constructor
  · unfold getServerValues
    cases mapIndex properties "middleware" <;> rfl
  · intro doc hwf
    obtain ⟨ts, rs, _, _, h⟩ := convertToApiParseResult_some ext doc hwf
    refine ⟨_, _, h, rfl, ?_⟩
    cases (doc.Service.Groups.filter
      (fun group => group.Annotation.Properties.isSome)).getLast? with
    | none => simp [ApiServer.zero, sliceElems]
    | some group =>
      simp only [convertServer, getServerValues]
      cases mapIndex group.Annotation.Properties "middleware" <;> simp [sliceElems]

/-- The example of C16: the value `A,B` gives the one element `A,B`, for the
map alone and in the output of the sample document, whose last group holds it. -/
theorem middleware_single_value_witness :
    mapIndex middlewareProperties "middleware" = some "A,B" ∧
    getServerValues middlewareProperties "middleware" = some ["A,B"] ∧
    sampleDoc.wellFormed sampleMethods = true ∧
    (convertToApiParseResult sampleMethods (some sampleDoc)).map
      (fun r => (sliceElems r.Services).map (fun svc => svc.Server.Middleware))
      = some [some ["A,B"]] ∧
    ∃ r svc, convertToApiParseResult sampleMethods (some sampleDoc) = some r ∧
      r.Services = some [svc] ∧
      (sliceElems svc.Server.Middleware).length ≤ 1 :=
  ⟨by decide, by decide, by decide, by decide,
    (middleware_single_value sampleMethods middlewareProperties).2 sampleDoc (by decide)⟩

/-- C17: the conversion of a route returns a route whose handler, method and
path are the route's, whose docs are the route's doc lines in order (an
initialised empty sequence when there are none) whatever the `@doc` annotation
is, and whose route-level annotation is the route's `@server` property map when
that map is non-nil and the empty map otherwise. The conversion of a route does
not see the group or its `@server` annotation. -/
theorem route_fields_projected (ext : SpecMethods) (route : Route) :
    ∃ apiRoute, convertRoute ext route = some apiRoute ∧
      apiRoute.Handler = route.Handler ∧
      apiRoute.Method = route.Method ∧
      apiRoute.Path = route.Path ∧
      apiRoute.Docs = some route.Docs ∧
      apiRoute.AtServerAnnotation =
        (match route.AtServerAnnotation.Properties with
        | some properties => some properties
        | none => makeMap) ∧
      ∀ atDoc : AtDoc, ∃ apiRoute',
        convertRoute ext { route with AtDoc := atDoc } = some apiRoute' ∧
        apiRoute'.Docs = apiRoute.Docs := by
  obtain ⟨doc, h, _⟩ := convertRoute_some ext route
  refine ⟨_, h, rfl, rfl, rfl, rfl, ?_, ?_⟩
  · cases route.AtServerAnnotation.Properties <;> simp
  · intro atDoc
    obtain ⟨doc', h', _⟩ := convertRoute_some ext { route with AtDoc := atDoc }
    exact ⟨_, h', rfl⟩

/-- A route with two doc lines and a route-level `@server` property: the docs
and the property map are copied. -/
theorem route_fields_projected_witness :
    (convertRoute sampleMethods bodyRoute).map
      (fun apiRoute => [apiRoute.Handler, apiRoute.Method, apiRoute.Path])
      = some ["create", "post", "/users"] ∧
    (convertRoute sampleMethods bodyRoute).map (fun apiRoute => apiRoute.Docs)
      = some (some ["// create", "// a user"]) ∧
    (convertRoute sampleMethods bodyRoute).map
      (fun apiRoute => mapIndex apiRoute.AtServerAnnotation "role") = some (some "admin") ∧
    (convertRoute sampleMethods (sampleRoute "h" "/h")).map
      (fun apiRoute =>
        (apiRoute.Docs, apiRoute.AtServerAnnotation.isSome, mapLen apiRoute.AtServerAnnotation))
      = some (some [], true, 0) ∧
    ∃ apiRoute, convertRoute sampleMethods bodyRoute = some apiRoute ∧
      apiRoute.Handler = bodyRoute.Handler ∧
      apiRoute.Method = bodyRoute.Method ∧
      apiRoute.Path = bodyRoute.Path ∧
      apiRoute.Docs = some bodyRoute.Docs ∧
      apiRoute.AtServerAnnotation =
        (match bodyRoute.AtServerAnnotation.Properties with
        | some properties => some properties
        | none => makeMap) ∧
      ∀ atDoc : AtDoc, ∃ apiRoute',
        convertRoute sampleMethods { bodyRoute with AtDoc := atDoc } = some apiRoute' ∧
        apiRoute'.Docs = apiRoute.Docs :=
  ⟨by decide, by decide, by decide, by decide,
    route_fields_projected sampleMethods bodyRoute⟩

/-! ## Writing and re-reading a result -/

/-- Re-reading the items written for a list gives the re-read elements. -/
theorem readItems_map {α : Type} (zero : α) (read : Json → Option α) (encode : α → Json)
    (f : α → α) (h : ∀ x, readField zero read (some (encode x)) = some (f x)) (xs : List α) :
    readItems zero read (xs.map encode) = some (xs.map f) := by
  induction xs with
  | nil => rfl
  | cons x xs ih => simp [readItems, h, ih]

/-- Re-reading a slice written under a tag without `omitempty`: nil stays nil
and an initialised slice stays initialised. -/
theorem readField_encodeSlice {α : Type} (zero : α) (read : Json → Option α)
    (encode : α → Json) (f : α → α)
    (h : ∀ x, readField zero read (some (encode x)) = some (f x)) (s : Slice α) :
    readField none (readSlice zero read) (some (encodeSlice encode s))
      = some (s.map (List.map f)) := by
  cases s with
  | none => rfl
  | some xs => simp [encodeSlice, readField, readSlice, readItems_map zero read encode f h]

theorem readField_str (s : String) : readField "" readString (some (Json.str s)) = some s := rfl

theorem readField_bool (b : Bool) :
    readField false readBool (some (Json.bool b)) = some b := rfl

/-- Re-reading a slice of strings written under a tag without `omitempty`. -/
theorem readField_encodeStrings (s : Slice String) :
    readField none (readSlice "" readString) (some (encodeSlice Json.str s)) = some s := by
  rw [readField_encodeSlice "" readString Json.str id readField_str]
  cases s <;> simp

/-- Storing the members written for a list of entries, in reverse. -/
theorem readMembers_entries (l : List (Sigma (fun _ : String => String))) (m : StrMap) :
    readMembers (l.map (fun e => (e.1, Json.str e.2))) m
      = some (l.foldl (fun m e => m.insert e.1 e.2) m) := by
  induction l generalizing m with
  | nil => rfl
  | cons e l ih => simp [readMembers, readField, readString, ih]

/-- Storing the entries of a map from the last to the first rebuilds the map. -/
theorem foldr_insert_entries (l : List (Sigma (fun _ : String => String)))
    (h : l.NodupKeys) :
    l.foldr (fun e (m : StrMap) => m.insert e.1 e.2) ∅ = ⟨l, h⟩ := by
  induction l with
  | nil => rfl
  | cons e l ih =>
    have hl := (List.nodupKeys_cons.mp h)
    rw [List.foldr_cons, ih hl.2]
    apply AList.ext
    rw [AList.insert_entries_of_neg]
    exact hl.1

/-- Re-reading a map written under a tag without `omitempty`: nil stays nil and
an initialised map is rebuilt. -/
theorem readField_encodeMap (m : GoMap) :
    readField none readMap (some (encodeMap m)) = some m := by
  cases m with
  | none => rfl
  | some entries =>
    have h := readMembers_entries entries.entries.reverse ∅
    rw [List.foldl_reverse] at h
    simp only [encodeMap, readField, readMap, h, Option.map_some']
    rw [foldr_insert_entries entries.entries entries.nodupKeys]

/-- The member taken for a key from two runs of members: the later run first. -/
theorem member?_append (key : String) (l₁ l₂ : List (String × Json)) :
    member? key (l₁ ++ l₂) = (member? key l₂).or (member? key l₁) := by
  induction l₁ with
  | nil => simp [member?]
  | cons kv l₁ ih =>
    obtain ⟨k, v⟩ := kv
    have ih' : member? key (l₁.append l₂) = (member? key l₂).or (member? key l₁) := ih
    simp only [List.cons_append, member?]
    rw [ih']
    cases member? key l₂ <;> simp

/-- The member taken for a key from an omit-if-empty member. -/
theorem member?_omitEmpty (key k : String) (empty : Bool) (value : Json) :
    member? key (omitEmpty k empty value) =
      if k = key then (if empty = true then none else some value) else none := by
  cases empty <;> simp [omitEmpty, member?]

/-- Re-reading a slice of strings written under an `omitempty` tag. -/
theorem readField_omit_strings (s : Slice String) :
    readField none (readSlice "" readString)
        (if sliceElems s = [] then none else some (encodeSlice Json.str s))
      = some (omitSlice s) := by
  by_cases h : sliceElems s = []
  · simp [h, omitSlice, readField]
  · simp [h, omitSlice, readField_encodeStrings]

/-- Re-reading a map written under an `omitempty` tag. -/
theorem readField_omit_map (m : GoMap) :
    readField none readMap (if mapLen m = 0 then none else some (encodeMap m))
      = some (omitMap m) := by
  by_cases h : mapLen m = 0
  · simp [h, omitMap, readField]
  · simp [h, omitMap, readField_encodeMap]

/-- Re-reading a string written under an `omitempty` tag. -/
theorem readField_omit_string (s : String) :
    readField "" readString (if s = "" then none else some (Json.str s)) = some s := by
  by_cases h : s = ""
  · simp [h, readField]
  · simp [h, readField_str]

/-- Reading an object into a field reads the object. -/
theorem readField_obj {α : Type} (zero : α) (read : Json → Option α)
    (ms : List (String × Json)) :
    readField zero read (some (Json.obj ms)) = read (Json.obj ms) := rfl

/-- Re-reading an `ApiTypeField`. -/
theorem apiTypeField_ofJson_toJson (f : ApiTypeField) :
    readField ApiTypeField.zero ApiTypeField.ofJson (some f.toJson) = some f.reread := by
  simp only [ApiTypeField.toJson, readField_obj, ApiTypeField.ofJson]
  simp [member?_append, member?_omitEmpty, member?, readField_str, readField_bool,
    readField_omit_strings, ApiTypeField.reread]

/-- Re-reading an `ApiType`. -/
theorem apiType_ofJson_toJson (t : ApiType) :
    readField ApiType.zero ApiType.ofJson (some t.toJson) = some t.reread := by
  have hfields := readField_encodeSlice ApiTypeField.zero ApiTypeField.ofJson
    ApiTypeField.toJson ApiTypeField.reread apiTypeField_ofJson_toJson t.Fields
  simp only [ApiType.toJson, readField_obj, ApiType.ofJson]
  simp [member?_append, member?_omitEmpty, member?, readField_str, readField_omit_string,
    readField_omit_strings, readField_omit_map, hfields, ApiType.reread]

/-- Re-reading a slice of types written under an `omitempty` tag. -/
theorem readField_omit_types (s : Slice ApiType) :
    readField none (readSlice ApiType.zero ApiType.ofJson)
        (if sliceElems s = [] then none else some (encodeSlice ApiType.toJson s))
      = some (omitSlice (s.map (List.map ApiType.reread))) := by
  have h := readField_encodeSlice ApiType.zero ApiType.ofJson ApiType.toJson ApiType.reread
    apiType_ofJson_toJson s
  cases s with
  | none => simp [sliceElems, omitSlice, readField]
  | some xs =>
    cases xs with
    | nil => simp [sliceElems, omitSlice, readField]
    | cons x xs => simpa [sliceElems, omitSlice] using h

/-- Re-reading an `ApiImport`. -/
theorem apiImport_ofJson_toJson (i : ApiImport) :
    readField ApiImport.zero ApiImport.ofJson (some i.toJson) = some i.reread := by
  simp only [ApiImport.toJson, readField_obj, ApiImport.ofJson]
  simp [member?_append, member?_omitEmpty, member?, readField_str, readField_omit_string,
    readField_omit_types, ApiImport.reread]

/-- Re-reading an `ApiInfo` gives it back. -/
theorem apiInfo_ofJson_toJson (i : ApiInfo) :
    readField ApiInfo.zero ApiInfo.ofJson (some i.toJson) = some i := by
  simp only [ApiInfo.toJson, readField_obj, ApiInfo.ofJson]
  simp [member?, readField_str, readField_encodeMap]

/-- Re-reading an `ApiServer` gives it back. -/
theorem apiServer_ofJson_toJson (s : ApiServer) :
    readField ApiServer.zero ApiServer.ofJson (some s.toJson) = some s := by
  simp only [ApiServer.toJson, readField_obj, ApiServer.ofJson]
  simp [member?, readField_str, readField_encodeStrings]

/-- Re-reading an `ApiRoute`. -/
theorem apiRoute_ofJson_toJson (r : ApiRoute) :
    readField ApiRoute.zero ApiRoute.ofJson (some r.toJson) = some r.reread := by
  simp only [ApiRoute.toJson, readField_obj, ApiRoute.ofJson]
  simp [member?_append, member?_omitEmpty, member?, readField_str, readField_encodeMap,
    readField_omit_strings, readField_omit_map, ApiRoute.reread]

/-- Re-reading an `ApiService`. -/
theorem apiService_ofJson_toJson (s : ApiService) :
    readField ApiService.zero ApiService.ofJson (some s.toJson) = some s.reread := by
  have hroutes := readField_encodeSlice ApiRoute.zero ApiRoute.ofJson ApiRoute.toJson
    ApiRoute.reread apiRoute_ofJson_toJson s.Routes
  simp only [ApiService.toJson, readField_obj, ApiService.ofJson]
  simp [member?, readField_str, apiServer_ofJson_toJson, hroutes, ApiService.reread]

/-- Writing a result and re-reading it gives the result with every empty
collection of an omit-if-empty field turned into nil. -/
theorem apiParseResult_ofJson_toJson (r : ApiParseResult) :
    ApiParseResult.ofJson r.toJson = some r.reread := by
  have himports := readField_encodeSlice ApiImport.zero ApiImport.ofJson ApiImport.toJson
    ApiImport.reread apiImport_ofJson_toJson r.Imports
  have htypes := readField_encodeSlice ApiType.zero ApiType.ofJson ApiType.toJson
    ApiType.reread apiType_ofJson_toJson r.Types
  have hservices := readField_encodeSlice ApiService.zero ApiService.ofJson ApiService.toJson
    ApiService.reread apiService_ofJson_toJson r.Services
  simp only [ApiParseResult.toJson, ApiParseResult.ofJson]
  simp [member?, readField_str, apiInfo_ofJson_toJson, himports, htypes, hservices,
    ApiParseResult.reread]

theorem omitSlice_omitSlice {α : Type} (s : Slice α) : omitSlice (omitSlice s) = omitSlice s := by
  unfold omitSlice
  split <;> simp_all [sliceElems]

theorem omitMap_omitMap (m : GoMap) : omitMap (omitMap m) = omitMap m := by
  unfold omitMap
  split <;> simp_all [mapLen]

theorem apiTypeField_reread_reread (f : ApiTypeField) : f.reread.reread = f.reread := by
  simp [ApiTypeField.reread, omitSlice_omitSlice]

theorem apiType_reread_reread (t : ApiType) : t.reread.reread = t.reread := by
  cases h : t.Fields <;>
    simp [ApiType.reread, omitSlice_omitSlice, omitMap_omitMap, h, apiTypeField_reread_reread]

theorem apiImport_reread_reread (i : ApiImport) : i.reread.reread = i.reread := by
  obtain ⟨value, asPackage, types⟩ := i
  cases types with
  | none => simp [ApiImport.reread, omitSlice, sliceElems]
  | some xs =>
    cases xs with
    | nil => simp [ApiImport.reread, omitSlice, sliceElems]
    | cons x xs => simp [ApiImport.reread, omitSlice, sliceElems, apiType_reread_reread]

theorem apiRoute_reread_reread (r : ApiRoute) : r.reread.reread = r.reread := by
  simp [ApiRoute.reread, omitSlice_omitSlice, omitMap_omitMap]

theorem apiService_reread_reread (s : ApiService) : s.reread.reread = s.reread := by
  cases h : s.Routes <;> simp [ApiService.reread, h, apiRoute_reread_reread]

/-- Re-reading twice is re-reading once. -/
theorem apiParseResult_reread_reread (r : ApiParseResult) : r.reread.reread = r.reread := by
  obtain ⟨syntaxVersion, info, imports, types, services⟩ := r
  cases imports <;> cases types <;> cases services <;>
    simp [ApiParseResult.reread, apiImport_reread_reread, apiType_reread_reread,
      apiService_reread_reread]

/-- C13 at a document with a nil metadata property map and one route group
without `@server`: the conversion returns initialised imports, types, services,
routes and route doc, but the properties of the info and the middleware of the
server are nil, which JSON writes as `null`. -/
theorem nil_collections_in_result :
    legacyDoc.wellFormed sampleMethods = true ∧
    legacyDoc.Info.Properties = none ∧
    (convertToApiParseResult sampleMethods (some legacyDoc)).map
      (fun r =>
        (r.Imports.isSome, r.Types.isSome, r.Services.isSome,
          (sliceElems r.Services).map (fun svc => svc.Routes.isSome),
          (sliceElems r.Services).map
            (fun svc => (sliceElems svc.Routes).map (fun apiRoute => apiRoute.Doc.isSome))))
      = some (true, true, true, [true], [[true]]) ∧
    (convertToApiParseResult sampleMethods (some legacyDoc)).map
      (fun r =>
        (r.Info.Properties.isSome,
          (sliceElems r.Services).map (fun svc => svc.Server.Middleware.isSome)))
      = some (false, [false]) ∧
    encodeMap none = Json.null ∧
    encodeSlice Json.str none = Json.null := by
  refine ⟨by decide, by decide, by decide, by decide, rfl, rfl⟩

/-- A nil document, a nil struct pointer in the type list, a member without a
type and a member on whose tag `IsOptional()` does not return each make the
conversion fail. -/
theorem conversion_fails_on_nil :
    convertToApiParseResult sampleMethods none = none ∧
    convertToApiParseResult sampleMethods
      (some { legacyDoc with Types := [TypeEntry.structPtr none] }) = none ∧
    convertToApiParseResult sampleMethods
      (some { legacyDoc with
        Types := [TypeEntry.structPtr (some
          { RawName := "T"
            Members := [{ Name := "x", Type_ := none, Tag := "", Comment := "", Docs := [],
                          IsInline := false }]
            Docs := [] })] }) = none ∧
    convertToApiParseResult sampleMethods
      (some { legacyDoc with
        Types := [TypeEntry.structPtr (some
          { RawName := "T"
            Members := [{ Name := "x", Type_ := some ⟨"int"⟩, Tag := "json:x", Comment := "",
                          Docs := [], IsInline := false }]
            Docs := [] })] }) = none := by
  refine ⟨rfl, rfl, rfl, rfl⟩

/-- C15 fails as stated: the result for the legacy document holds a route with
an initialised empty docs list; the tag of docs is `omitempty`, so the list is
not written, and re-reading leaves the nil list: the value read back is not the
result. -/
theorem json_round_trip_counterexample :
    ∃ r, convertToApiParseResult sampleMethods (some legacyDoc) = some r ∧
      ApiParseResult.ofJson r.toJson ≠ some r := by
  have h₁ : (convertToApiParseResult sampleMethods (some legacyDoc)).map
      (fun r => (sliceElems r.Services).map
        (fun svc => (sliceElems svc.Routes).map (fun apiRoute => apiRoute.Docs)))
      = some [[some []]] := by decide
  have h₂ : ((convertToApiParseResult sampleMethods (some legacyDoc)).bind
      (fun r => ApiParseResult.ofJson r.toJson)).map
      (fun r => (sliceElems r.Services).map
        (fun svc => (sliceElems svc.Routes).map (fun apiRoute => apiRoute.Docs)))
      = some [[none]] := by decide
  cases h : convertToApiParseResult sampleMethods (some legacyDoc) with
  | none => simp [h] at h₁
  | some r =>
    refine ⟨r, rfl, fun heq => ?_⟩
    simp only [h, Option.map_some', Option.some_bind, heq, Option.some.injEq] at h₁ h₂
    rw [h₁] at h₂
    simp at h₂

/-- C15, amended: for a document the parser can produce, writing the result of
the conversion as JSON under the field tags and re-reading it gives the result
with every empty collection of an omit-if-empty field (the docs and the
route-level annotation of a route, the docs and enums of a type, the docs of a
field, the types of an import) turned into nil and every other field
unchanged; the value read back is then written and re-read unchanged. -/
theorem json_round_trip_reread (ext : SpecMethods) (doc : ApiSpec)
    (hwf : doc.wellFormed ext = true) :
    ∃ r, convertToApiParseResult ext (some doc) = some r ∧
      ApiParseResult.ofJson r.toJson = some r.reread ∧
      ApiParseResult.ofJson r.reread.toJson = some r.reread := by
  obtain ⟨ts, rs, _, _, h⟩ := convertToApiParseResult_some ext doc hwf
  refine ⟨_, h, apiParseResult_ofJson_toJson _, ?_⟩
  rw [apiParseResult_ofJson_toJson, apiParseResult_reread_reread]

/-- The legacy document: its result is read back with nil docs in its route,
and that value is read back unchanged. -/
theorem json_round_trip_reread_witness :
    legacyDoc.wellFormed sampleMethods = true ∧
    ((convertToApiParseResult sampleMethods (some legacyDoc)).bind
      (fun r => ApiParseResult.ofJson r.toJson)).map
      (fun r => (sliceElems r.Services).map
        (fun svc => (sliceElems svc.Routes).map
          (fun apiRoute => (apiRoute.Handler, apiRoute.Docs, apiRoute.Doc.isSome))))
      = some [[("h", none, true)]] ∧
    ∃ r, convertToApiParseResult sampleMethods (some legacyDoc) = some r ∧
      ApiParseResult.ofJson r.toJson = some r.reread ∧
      ApiParseResult.ofJson r.reread.toJson = some r.reread :=
  ⟨by decide, by decide, json_round_trip_reread sampleMethods legacyDoc (by decide)⟩

end ApiParser
